import Mathlib

/-!
Verification of the cmd_notebook storage core (src-tauri/src/{config,backup,lib}.rs).

The filesystem is modelled as a finite map from paths (lists of name
components) to files carrying an opaque content and a modification time
(a natural number standing for a wall-clock second).  Fallible OS calls
consult an oracle `Env` that says, per path, whether a given primitive
fails; the injected platform directories (app config dir, app data dir)
also live in `Env`.  Each Rust function becomes a state-passing Lean
function returning the new filesystem together with a `Except String`
result carrying the source's error strings.  Wall-clock time enters as
an explicit `now` argument (chrono's `Local::now()` at second
resolution); file writes and copies stamp `now` as the mtime.
-/

set_option maxHeartbeats 1000000

namespace CmdNotebook

/-- A filesystem path, as its list of name components. -/
abbrev FPath := List String

/-- AppConfig from config.rs: the configured data directory and backup
retention count. -/
structure AppConfig where
  data_dir : FPath
  backup_count : Nat
deriving DecidableEq

/-- Contents of a file.  The state blob is an opaque string; the config
file stores a serialized `AppConfig` (serde round-trips, so the JSON
encoding is modelled by the value itself; any other text is a parse
error). -/
inductive FileData where
  | text (s : String)
  | config (c : AppConfig)
deriving DecidableEq

/-- A file: content plus modification time. -/
structure FNode where
  content : FileData
  mtime : Nat
deriving DecidableEq

/-- A filesystem state: files and existing directories. -/
structure FS where
  files : List (FPath × FNode)
  dirs : List FPath
deriving DecidableEq

/-- Association-list lookup on files. -/
def lookupF : List (FPath × FNode) → FPath → Option FNode
  | [], _ => none
  | e :: rest, p => if e.1 = p then some e.2 else lookupF rest p

def FS.file? (fs : FS) (p : FPath) : Option FNode := lookupF fs.files p

def FS.fileExists (fs : FS) (p : FPath) : Bool := (fs.file? p).isSome

def FS.dirExists (fs : FS) (p : FPath) : Bool := fs.dirs.contains p

/-- Rust `Path::exists`: true for a file or a directory. -/
def FS.pathExists (fs : FS) (p : FPath) : Bool := fs.fileExists p || fs.dirExists p

/-- Drop every entry whose key is `p`. -/
def eraseF (l : List (FPath × FNode)) (p : FPath) : List (FPath × FNode) :=
  l.filter (fun e => !(e.1 == p))

def FS.setFile (fs : FS) (p : FPath) (f : FNode) : FS :=
  { fs with files := (p, f) :: eraseF fs.files p }

def FS.removeFile (fs : FS) (p : FPath) : FS :=
  { fs with files := eraseF fs.files p }

def FS.addDir (fs : FS) (p : FPath) : FS :=
  { fs with dirs := p :: fs.dirs }

/-- The environment: platform-provided directories, and the failure
oracle deciding which primitive filesystem calls fail (keyed by the
path being touched). -/
structure Env where
  configDir : FPath
  defaultDir : FPath
  failCreateDir : FPath → Bool
  failWrite : FPath → Bool
  failRename : FPath → Bool
  failCopy : FPath → Bool
  failRead : FPath → Bool
  failReadDir : FPath → Bool
  failRemove : FPath → Bool

/-- Model of `fs::create_dir_all`: no-op on an existing directory, fails
on an existing file or when the oracle says so. -/
def fsCreateDirAll (E : Env) (fs : FS) (p : FPath) : Option FS :=
  if fs.dirExists p then some fs
  else if fs.fileExists p || E.failCreateDir p then none
  else some (fs.addDir p)

/-- Outcome of `fs::read_to_string`: absent, I/O error, or the content. -/
inductive ReadResult where
  | notFound
  | ioError
  | ok (d : FileData)
deriving DecidableEq

/-- Model of `fs::read_to_string`.  Reading a directory is an I/O error
that is not `NotFound`. -/
def fsRead (E : Env) (fs : FS) (p : FPath) : ReadResult :=
  match fs.file? p with
  | none => if fs.dirExists p then .ioError else .notFound
  | some f => if E.failRead p then .ioError else .ok f.content

/-- Model of `fs::write`: needs the parent directory, fails on a path
that is a directory or when the oracle says so; stamps mtime `now`. -/
def fsWrite (E : Env) (fs : FS) (p : FPath) (d : FileData) (now : Nat) : Option FS :=
  if E.failWrite p || !(fs.dirExists p.dropLast) || fs.dirExists p then none
  else some (fs.setFile p ⟨d, now⟩)

/-- Model of `fs::rename`: atomic replace of `dst` by `src`, keeping the
file's mtime. -/
def fsRename (E : Env) (fs : FS) (src dst : FPath) : Option FS :=
  match fs.file? src with
  | none => none
  | some f => if E.failRename dst then none else some ((fs.removeFile src).setFile dst f)

/-- Model of `fs::copy`: byte-copy of `src` to `dst` with a fresh mtime. -/
def fsCopy (E : Env) (fs : FS) (src dst : FPath) (now : Nat) : Option FS :=
  match fs.file? src with
  | none => none
  | some f =>
    if E.failCopy dst || !(fs.dirExists dst.dropLast) || fs.dirExists dst then none
    else some (fs.setFile dst ⟨f.content, now⟩)

/-- Model of `fs::remove_file`. -/
def fsRemoveFile (E : Env) (fs : FS) (p : FPath) : Option FS :=
  if E.failRemove p then none else some (fs.removeFile p)

/-- Entries of a file list lying directly inside directory `d`,
as (file name, mtime) pairs, in list order. -/
def entriesL (l : List (FPath × FNode)) (d : FPath) : List (String × Nat) :=
  l.filterMap fun e =>
    (e.1.getLast?).bind fun n =>
      if e.1.dropLast = d then some (n, e.2.mtime) else none

/-- The files lying directly inside directory `d`, as (file name, mtime)
entries, in directory order. -/
def FS.entriesIn (fs : FS) (d : FPath) : List (String × Nat) :=
  entriesL fs.files d

/-- Model of `fs::read_dir`. -/
def fsReadDir (E : Env) (fs : FS) (d : FPath) : Option (List (String × Nat)) :=
  if E.failReadDir d || !(fs.dirExists d) then none else some (fs.entriesIn d)

/-! Backup file names.  `generate_backup_filename` renders the current
local time at second resolution; the rendering is injective on seconds,
which is all the code relies on.  We render the abstract second count
with decimal digits (least significant first). -/

def digitCh : Nat → Char
  | 0 => '0' | 1 => '1' | 2 => '2' | 3 => '3' | 4 => '4'
  | 5 => '5' | 6 => '6' | 7 => '7' | 8 => '8' | _ => '9'

/-- Fuel-driven base-10 digit list (least significant first); structural
so that it evaluates inside the kernel. -/
def ledigits : Nat → Nat → List Nat
  | 0, _ => []
  | _ + 1, 0 => []
  | fuel + 1, n + 1 => ((n + 1) % 10) :: ledigits fuel ((n + 1) / 10)

def timeDigits (n : Nat) : List Nat := ledigits n n

def timeStr (n : Nat) : String := String.mk ((timeDigits n).map digitCh)

/-- generate_backup_filename from backup.rs:
`cmd_notebook_<timestamp>.json`. -/
def generate_backup_filename (now : Nat) : String :=
  "cmd_notebook_" ++ timeStr now ++ ".json"

/-- The file-name filter used by cleanup_old_backups:
starts_with "cmd_notebook_" and ends_with ".json". -/
def matchesPattern (n : String) : Bool :=
  "cmd_notebook_".data.isPrefixOf n.data && ".json".data.isSuffixOf n.data

/-! The program, translated from config.rs / backup.rs / lib.rs. -/

def DATA_FILE : String := "cmd_notebook.json"
def CONFIG_FILE : String := "app_config.json"
def BACKUP_DIR : String := ".backup"
def DEFAULT_BACKUP_COUNT : Nat := 10

/-- config_file_path from config.rs. -/
def config_file_path (E : Env) : FPath := E.configDir ++ [CONFIG_FILE]

/-- default_data_dir from config.rs (injected platform capability). -/
def default_data_dir (E : Env) : FPath := E.defaultDir

/-- save_config from config.rs: ensure the parent directory, write a
sibling `.tmp` file, atomically rename it over the config path. -/
def save_config (E : Env) (fs : FS) (now : Nat) (config : AppConfig) :
    FS × Except String Unit :=
  let config_path := config_file_path E
  match fsCreateDirAll E fs config_path.dropLast with
  | none => (fs, .error "无法创建配置目录")
  | some fs1 =>
    let tmp_path := E.configDir ++ ["app_config.json.tmp"]
    match fsWrite E fs1 tmp_path (.config config) now with
    | none => (fs1, .error "写入配置文件失败")
    | some fs2 =>
      match fsRename E fs2 tmp_path config_path with
      | none => (fs2, .error "保存配置文件失败")
      | some fs3 => (fs3, .ok ())

/-- load_config from config.rs: read and parse the config file when
present (repairing an empty data_dir to the platform default in
memory); otherwise create and persist the default config. -/
def load_config (E : Env) (fs : FS) (now : Nat) : FS × Except String AppConfig :=
  let config_path := config_file_path E
  if fs.pathExists config_path then
    match fsRead E fs config_path with
    | .ok (.config c) =>
      let c := if c.data_dir = [] then { c with data_dir := default_data_dir E } else c
      (fs, .ok c)
    | .ok (.text _) => (fs, .error "配置文件格式错误")
    | _ => (fs, .error "读取配置文件失败")
  else
    let config : AppConfig := ⟨default_data_dir E, DEFAULT_BACKUP_COUNT⟩
    match save_config E fs now config with
    | (fs1, .ok _) => (fs1, .ok config)
    | (fs1, .error e) => (fs1, .error e)

/-- data_file_path from config.rs. -/
def data_file_path (E : Env) (fs : FS) (now : Nat) : FS × Except String FPath :=
  match load_config E fs now with
  | (fs1, .ok config) => (fs1, .ok (config.data_dir ++ [DATA_FILE]))
  | (fs1, .error e) => (fs1, .error e)

/-- backup_dir_path from config.rs. -/
def backup_dir_path (E : Env) (fs : FS) (now : Nat) : FS × Except String FPath :=
  match load_config E fs now with
  | (fs1, .ok config) => (fs1, .ok (config.data_dir ++ [BACKUP_DIR]))
  | (fs1, .error e) => (fs1, .error e)

/-- is_dir_writable from config.rs: create the directory if missing,
then write and best-effort remove a `.write_test` marker file. -/
def is_dir_writable (E : Env) (fs : FS) (now : Nat) (p : FPath) : FS × Bool :=
  let go : FS → FS × Bool := fun fs' =>
    let test_file := p ++ [".write_test"]
    match fsWrite E fs' test_file (.text "test") now with
    | none => (fs', false)
    | some fs'' =>
      match fsRemoveFile E fs'' test_file with
      | none => (fs'', true)
      | some fs3 => (fs3, true)
  if !(fs.pathExists p) then
    match fsCreateDirAll E fs p with
    | none => (fs, false)
    | some fs1 => go fs1
  else go fs

/-- Stable insertion of an entry into a list sorted by mtime descending
(equal keys: the inserted element goes first, matching a stable sort of
a list in which it occurred earlier). -/
def insertDesc (x : String × Nat) : List (String × Nat) → List (String × Nat)
  | [] => [x]
  | y :: ys => if y.2 ≤ x.2 then x :: y :: ys else y :: insertDesc x ys

/-- Model of slice sort_by with comparator `time_b.cmp(&time_a)`:
the stable sort by modification time, newest first. -/
def sortByMtimeDesc : List (String × Nat) → List (String × Nat)
  | [] => []
  | x :: xs => insertDesc x (sortByMtimeDesc xs)

/-- cleanup_old_backups from backup.rs: list the backup directory,
filter entries named `cmd_notebook_*.json`, and unless at most
`keep_count` remain, delete all but the `keep_count` newest, swallowing
individual deletion failures. -/
def cleanup_old_backups (E : Env) (fs : FS) (backup_dir : FPath) (keep_count : Nat) :
    FS × Except String Unit :=
  match fsReadDir E fs backup_dir with
  | none => (fs, .error "读取备份目录失败")
  | some entries =>
    let backups := entries.filter (fun e => matchesPattern e.1)
    if backups.length ≤ keep_count then (fs, .ok ())
    else
      let sorted := sortByMtimeDesc backups
      let fs' := (sorted.drop keep_count).foldl
        (fun acc e =>
          match fsRemoveFile E acc (backup_dir ++ [e.1]) with
          | none => acc
          | some acc' => acc') fs
      (fs', .ok ())

/-- create_backup_if_changed from backup.rs. -/
def create_backup_if_changed (E : Env) (fs : FS) (now : Nat) (new_content : String) :
    FS × Except String Unit :=
  match data_file_path E fs now with
  | (fs1, .error e) => (fs1, .error e)
  | (fs1, .ok data_path) =>
    if !(fs1.pathExists data_path) then (fs1, .ok ())
    else
      let current_content : FileData :=
        match fsRead E fs1 data_path with
        | .ok d => d
        | _ => .text ""
      if current_content = .text new_content then (fs1, .ok ())
      else
        match backup_dir_path E fs1 now with
        | (fs2, .error e) => (fs2, .error e)
        | (fs2, .ok backup_dir) =>
          match fsCreateDirAll E fs2 backup_dir with
          | none => (fs2, .error "无法创建备份目录")
          | some fs3 =>
            let backup_path := backup_dir ++ [generate_backup_filename now]
            match fsCopy E fs3 data_path backup_path now with
            | none => (fs3, .error "创建备份失败")
            | some fs4 =>
              match load_config E fs4 now with
              | (fs5, .error e) => (fs5, .error e)
              | (fs5, .ok config) =>
                cleanup_old_backups E fs5 backup_dir config.backup_count

/-- backup_file from backup.rs: unconditional timestamped copy; returns
`none` (the source's empty string) when the source does not exist. -/
def backup_file (E : Env) (fs : FS) (now : Nat) (source backup_dir : FPath) :
    FS × Except String (Option FPath) :=
  if !(fs.pathExists source) then (fs, .ok none)
  else
    match fsCreateDirAll E fs backup_dir with
    | none => (fs, .error "无法创建备份目录")
    | some fs1 =>
      let backup_path := backup_dir ++ [generate_backup_filename now]
      match fsCopy E fs1 source backup_path now with
      | none => (fs1, .error "创建备份失败")
      | some fs2 => (fs2, .ok (some backup_path))

/-- copy_data_to_new_dir from backup.rs. -/
def copy_data_to_new_dir (E : Env) (fs : FS) (now : Nat) (new_dir : FPath) :
    FS × Except String Unit :=
  match data_file_path E fs now with
  | (fs1, .error e) => (fs1, .error e)
  | (fs1, .ok current_data_path) =>
    if !(fs1.pathExists current_data_path) then (fs1, .ok ())
    else
      match fsCreateDirAll E fs1 new_dir with
      | none => (fs1, .error "无法创建目标目录")
      | some fs2 =>
        match fsCopy E fs2 current_data_path (new_dir ++ [DATA_FILE]) now with
        | none => (fs2, .error "复制数据文件失败")
        | some fs3 => (fs3, .ok ())

/-- save_state from lib.rs: resolve the data path, ensure its parent,
back up on change, then write-temp-and-rename the new content.  The
temporary name models `path.with_extension("json.tmp")` applied to
`cmd_notebook.json`. -/
def save_state (E : Env) (fs : FS) (now : Nat) (data : String) :
    FS × Except String Unit :=
  match data_file_path E fs now with
  | (fs1, .error e) => (fs1, .error e)
  | (fs1, .ok path) =>
    match fsCreateDirAll E fs1 path.dropLast with
    | none => (fs1, .error "无法创建数据目录")
    | some fs2 =>
      match create_backup_if_changed E fs2 now data with
      | (fs3, .error e) => (fs3, .error e)
      | (fs3, .ok _) =>
        let tmp_path := path.dropLast ++ ["cmd_notebook.json.tmp"]
        match fsWrite E fs3 tmp_path (.text data) now with
        | none => (fs3, .error "写入数据失败")
        | some fs4 =>
          match fsRename E fs4 tmp_path path with
          | none => (fs4, .error "保存数据失败")
          | some fs5 => (fs5, .ok ())

/-- load_state from lib.rs: absent file is `none`, other read errors
are surfaced. -/
def load_state (E : Env) (fs : FS) (now : Nat) :
    FS × Except String (Option FileData) :=
  match data_file_path E fs now with
  | (fs1, .error e) => (fs1, .error e)
  | (fs1, .ok path) =>
    match fsCreateDirAll E fs1 path.dropLast with
    | none => (fs1, .error "无法创建数据目录")
    | some fs2 =>
      match fsRead E fs2 path with
      | .ok contents => (fs2, .ok (some contents))
      | .notFound => (fs2, .ok none)
      | .ioError => (fs2, .error "读取数据文件失败")

/-- DataDirInfo from config.rs. -/
structure DataDirInfo where
  path : FPath
  is_default : Bool
  data_file_exists : Bool
  is_writable : Bool
deriving DecidableEq

/-- get_data_dir_info from lib.rs. -/
def get_data_dir_info (E : Env) (fs : FS) (now : Nat) :
    FS × Except String DataDirInfo :=
  match load_config E fs now with
  | (fs1, .error e) => (fs1, .error e)
  | (fs1, .ok config) =>
    let default_dir := default_data_dir E
    let data_path := config.data_dir ++ [DATA_FILE]
    let dfe := fs1.pathExists data_path
    match is_dir_writable E fs1 now config.data_dir with
    | (fs2, w) =>
      (fs2, .ok ⟨config.data_dir, config.data_dir == default_dir, dfe, w⟩)

/-- SwitchDirAction from config.rs. -/
inductive SwitchDirAction where
  | CopyToNew
  | UseExisting
  | Cancel
deriving DecidableEq

/-- switch_data_dir from lib.rs. -/
def switch_data_dir (E : Env) (fs : FS) (now : Nat) (path : FPath)
    (action : SwitchDirAction) : FS × Except String Unit :=
  let new_dir := path
  let updateConfig : FS → FS × Except String Unit := fun fsx =>
    match load_config E fsx now with
    | (fsy, .error e) => (fsy, .error e)
    | (fsy, .ok config) => save_config E fsy now { config with data_dir := new_dir }
  match action with
  | .Cancel => (fs, .ok ())
  | .CopyToNew =>
    match copy_data_to_new_dir E fs now new_dir with
    | (fs1, .error e) => (fs1, .error e)
    | (fs1, .ok _) => updateConfig fs1
  | .UseExisting =>
    match data_file_path E fs now with
    | (fs1, .error e) => (fs1, .error e)
    | (fs1, .ok current_data_path) =>
      if fs1.pathExists current_data_path then
        match load_config E fs1 now with
        | (fs2, .error e) => (fs2, .error e)
        | (fs2, .ok config) =>
          match backup_file E fs2 now current_data_path
              (config.data_dir ++ [BACKUP_DIR]) with
          | (fs3, .error e) => (fs3, .error e)
          | (fs3, .ok _) => updateConfig fs3
      else updateConfig fs1

/-- A sequence of save_state calls (content, timestamp), stopping at the
first error. -/
def runSaves (E : Env) : FS → List (String × Nat) → FS × Except String Unit
  | fs, [] => (fs, .ok ())
  | fs, (c, t) :: rest =>
    match save_state E fs t c with
    | (fs', .ok _) => runSaves E fs' rest
    | (fs', .error e) => (fs', .error e)

/-- Filtering the entries of a directory by the backup-name pattern. -/
def patternEntries (fs : FS) (d : FPath) : List (String × Nat) :=
  (fs.entriesIn d).filter (fun e => matchesPattern e.1)

/-- The data file path determined by a configuration. -/
def dataPath (cfg : AppConfig) : FPath := cfg.data_dir ++ [DATA_FILE]

/-- The temporary path used by save_state's atomic write. -/
def tmpDataPath (cfg : AppConfig) : FPath := cfg.data_dir ++ ["cmd_notebook.json.tmp"]

/-- The backup directory path determined by a configuration. -/
def bdirPath (cfg : AppConfig) : FPath := cfg.data_dir ++ [BACKUP_DIR]

/-- The temporary path used by save_config's atomic write. -/
def tmpConfigPath (E : Env) : FPath := E.configDir ++ ["app_config.json.tmp"]

def removePaths (fs : FS) (ps : List FPath) : FS := ps.foldl FS.removeFile fs

/-- Well-formedness of a state with respect to a configuration:
the config file stores `cfg`, the data and backup directories exist,
nothing shadows the data/tmp paths, no directory sits inside the backup
directory, and file keys are unique. -/
def goodBase (E : Env) (fs : FS) (cfg : AppConfig) : Prop :=
  (fs.file? (config_file_path E)).map FNode.content = some (.config cfg) ∧
  cfg.data_dir ≠ [] ∧
  E.failRead (config_file_path E) = false ∧
  cfg.data_dir ∈ fs.dirs ∧
  bdirPath cfg ∈ fs.dirs ∧
  dataPath cfg ∉ fs.dirs ∧
  tmpDataPath cfg ∉ fs.dirs ∧
  (∀ d ∈ fs.dirs, d.dropLast ≠ bdirPath cfg) ∧
  (fs.files.map Prod.fst).Nodup

/-- The on-disk data file: absent, or a text blob with its mtime. -/
def goodData (fs : FS) (cfg : AppConfig) : Option (String × Nat) → Prop
  | none => fs.file? (dataPath cfg) = none
  | some ct => fs.file? (dataPath cfg) = some ⟨.text ct.1, ct.2⟩

/-- The backup directory holds exactly the timestamped entries `bts`. -/
def goodBackups (fs : FS) (cfg : AppConfig) (bts : List Nat) : Prop :=
  (patternEntries fs (bdirPath cfg)).Perm
    (bts.map (fun t => (generate_backup_filename t, t))) ∧ bts.Nodup

/-- An oracle on which every filesystem primitive succeeds. -/
def benignFS (E : Env) : Prop :=
  (∀ p, E.failCreateDir p = false) ∧ (∀ p, E.failWrite p = false) ∧
  (∀ p, E.failRename p = false) ∧ (∀ p, E.failCopy p = false) ∧
  (∀ p, E.failRead p = false) ∧ (∀ p, E.failReadDir p = false) ∧
  (∀ p, E.failRemove p = false)

instance {ε α : Type} [DecidableEq ε] [DecidableEq α] : DecidableEq (Except ε α) :=
  fun a b =>
  match a, b with
  | .error e1, .error e2 =>
    if h : e1 = e2 then isTrue (by rw [h]) else isFalse (fun hc => h (Except.error.inj hc))
  | .ok a1, .ok a2 =>
    if h : a1 = a2 then isTrue (by rw [h]) else isFalse (fun hc => h (Except.ok.inj hc))
  | .error _, .ok _ => isFalse (fun hc => Except.noConfusion hc)
  | .ok _, .error _ => isFalse (fun hc => Except.noConfusion hc)

instance (E : Env) (fs : FS) (cfg : AppConfig) : Decidable (goodBase E fs cfg) := by
  unfold goodBase
  infer_instance

instance (fs : FS) (cfg : AppConfig) (o : Option (String × Nat)) :
    Decidable (goodData fs cfg o) :=
  match o with
  | none => (inferInstance : Decidable (fs.file? (dataPath cfg) = none))
  | some ct =>
    (inferInstance : Decidable (fs.file? (dataPath cfg) = some ⟨.text ct.1, ct.2⟩))

instance (fs : FS) (cfg : AppConfig) (bts : List Nat) :
    Decidable (goodBackups fs cfg bts) := by
  unfold goodBackups
  infer_instance

/-! Concrete fixtures used to exercise the operations on closed inputs. -/

/-- A concrete oracle on which every primitive succeeds. -/
def wEnv : Env :=
  ⟨["cfg"], ["dflt"], fun _ => false, fun _ => false, fun _ => false,
    fun _ => false, fun _ => false, fun _ => false, fun _ => false⟩

/-- A concrete configuration: data directory `d`, retention 2. -/
def wCfg : AppConfig := ⟨["d"], 2⟩

/-- Config on disk, data and backup directories present, no data file,
no backups. -/
def wFS : FS :=
  ⟨[(["cfg", "app_config.json"], ⟨.config wCfg, 0⟩)], [["d"], ["d", ".backup"]]⟩

/-- Same config on disk but no directories exist yet. -/
def wFS1 : FS :=
  ⟨[(["cfg", "app_config.json"], ⟨.config wCfg, 0⟩)], []⟩

/-- Oracle on which creating the backup directory fails. -/
def wEnvC2 : Env := { wEnv with failCreateDir := fun p => p == ["d", ".backup"] }

/-- State with data file `old` and no backup directory. -/
def wFSC2 : FS :=
  ⟨[(["cfg", "app_config.json"], ⟨.config wCfg, 0⟩),
    (["d", "cmd_notebook.json"], ⟨.text "old", 0⟩)], [["d"]]⟩

/-- Oracle on which listing the backup directory fails. -/
def wEnvC3 : Env := { wEnv with failReadDir := fun p => p == ["d", ".backup"] }

/-- Oracle on which every file deletion fails. -/
def wEnvRm : Env := { wEnv with failRemove := fun _ => true }

/-- Oracle on which reading the data file fails. -/
def wEnvRd : Env := { wEnv with failRead := fun p => p == ["d", "cmd_notebook.json"] }

/-- State with data file `old` and both directories. -/
def wFSD : FS :=
  ⟨[(["cfg", "app_config.json"], ⟨.config wCfg, 0⟩),
    (["d", "cmd_notebook.json"], ⟨.text "old", 0⟩)], [["d"], ["d", ".backup"]]⟩

/-- State with data file `old` and two existing backup entries. -/
def wFSC3b : FS :=
  ⟨[(["cfg", "app_config.json"], ⟨.config wCfg, 0⟩),
    (["d", "cmd_notebook.json"], ⟨.text "old", 0⟩),
    (["d", ".backup", generate_backup_filename 1], ⟨.text "a", 1⟩),
    (["d", ".backup", generate_backup_filename 2], ⟨.text "b", 2⟩)],
   [["d"], ["d", ".backup"]]⟩

/-- A bare directory holding three backup entries. -/
def wFSB : FS :=
  ⟨[(["b", generate_backup_filename 1], ⟨.text "1", 1⟩),
    (["b", generate_backup_filename 2], ⟨.text "2", 2⟩),
    (["b", generate_backup_filename 3], ⟨.text "3", 3⟩)], [["b"]]⟩

/-! Basic lemmas about the filesystem primitives. -/

@[simp] theorem lookupF_nil (p : FPath) : lookupF [] p = none := rfl

@[simp] theorem lookupF_cons (e : FPath × FNode) (l : List (FPath × FNode)) (p : FPath) :
    lookupF (e :: l) p = if e.1 = p then some e.2 else lookupF l p := rfl

theorem lookupF_eraseF (l : List (FPath × FNode)) (p q : FPath) :
    lookupF (eraseF l p) q = if q = p then none else lookupF l q := by
  induction l with
  | nil => simp [eraseF]
  | cons e l ih =>
    by_cases h1 : e.1 = p
    · have he : eraseF (e :: l) p = eraseF l p := by
        simp [eraseF, List.filter_cons, h1]
      rw [he, ih]
      by_cases h2 : q = p
      · simp [h2]
      · have h3 : e.1 ≠ q := by rw [h1]; exact fun hc => h2 hc.symm
        simp [h2, lookupF_cons, h3]
    · have he : eraseF (e :: l) p = e :: eraseF l p := by
        simp [eraseF, List.filter_cons, h1]
      rw [he, lookupF_cons, ih]
      by_cases h3 : e.1 = q
      · have h2 : q ≠ p := by rw [← h3]; exact h1
        simp [h3, h2]
      · simp [h3]

@[simp] theorem file?_setFile (fs : FS) (p : FPath) (f : FNode) (q : FPath) :
    (fs.setFile p f).file? q = if q = p then some f else fs.file? q := by
  simp only [FS.setFile, FS.file?, lookupF_cons, lookupF_eraseF]
  by_cases h : q = p <;> simp [h]
  intro h'
  exact absurd h'.symm h

@[simp] theorem file?_removeFile (fs : FS) (p q : FPath) :
    (fs.removeFile p).file? q = if q = p then none else fs.file? q := by
  simp [FS.removeFile, FS.file?, lookupF_eraseF]

@[simp] theorem dirs_setFile (fs : FS) (p : FPath) (f : FNode) :
    (fs.setFile p f).dirs = fs.dirs := rfl

@[simp] theorem dirs_removeFile (fs : FS) (p : FPath) :
    (fs.removeFile p).dirs = fs.dirs := rfl

@[simp] theorem dirs_addDir (fs : FS) (p : FPath) :
    (fs.addDir p).dirs = p :: fs.dirs := rfl

@[simp] theorem files_addDir (fs : FS) (p : FPath) :
    (fs.addDir p).files = fs.files := rfl

@[simp] theorem file?_addDir (fs : FS) (p q : FPath) :
    (fs.addDir p).file? q = fs.file? q := rfl

theorem concat_ne_concat_of_name_ne {a b : FPath} {x y : String} (h : x ≠ y) :
    a ++ [x] ≠ b ++ [y] := by
  intro he
  have := congrArg List.getLast? he
  simp at this
  exact h this

theorem concat_ne_base (a : FPath) (x : String) (b : FPath) (h : a.length = b.length) :
    a ++ [x] ≠ b := by
  intro he
  have := congrArg List.length he
  simp [h] at this

/-! Backup file names: pattern facts and injectivity. -/

theorem isPrefixOf_append (l t : List Char) : l.isPrefixOf (l ++ t) = true := by
  induction l with
  | nil => simp [List.isPrefixOf]
  | cons a l ih => simp [List.isPrefixOf, ih]

theorem isSuffixOf_append (l t : List Char) : l.isSuffixOf (t ++ l) = true := by
  simp only [List.isSuffixOf, List.reverse_append]
  exact isPrefixOf_append l.reverse t.reverse

theorem matchesPattern_gen (t : Nat) :
    matchesPattern (generate_backup_filename t) = true := by
  simp only [matchesPattern, generate_backup_filename, Bool.and_eq_true]
  constructor
  · have : ("cmd_notebook_" ++ timeStr t ++ ".json").data
        = "cmd_notebook_".data ++ ((timeStr t).data ++ ".json".data) := by
      simp [String.data_append]
    rw [this]
    exact isPrefixOf_append _ _
  · have : ("cmd_notebook_" ++ timeStr t ++ ".json").data
        = ("cmd_notebook_".data ++ (timeStr t).data) ++ ".json".data := by
      simp [String.data_append]
    rw [this]
    exact isSuffixOf_append _ _

theorem ledigits_eq_digits : ∀ fuel n, n ≤ fuel → ledigits fuel n = Nat.digits 10 n := by
  intro fuel
  induction fuel with
  | zero =>
    intro n hn
    interval_cases n
    simp [ledigits]
  | succ fuel ih =>
    intro n hn
    match n with
    | 0 => simp [ledigits]
    | n + 1 =>
      have h1 : (n + 1) / 10 < n + 1 := Nat.div_lt_self (Nat.succ_pos n) (by norm_num)
      have h2 : (n + 1) / 10 ≤ fuel := by omega
      rw [ledigits, ih _ h2, Nat.digits_def' (by norm_num : 1 < 10) (Nat.succ_pos n)]

theorem timeDigits_eq_digits (n : Nat) : timeDigits n = Nat.digits 10 n :=
  ledigits_eq_digits n n le_rfl

theorem map_digitCh_inj : ∀ l1 l2 : List Nat, (∀ x ∈ l1, x < 10) → (∀ x ∈ l2, x < 10) →
    l1.map digitCh = l2.map digitCh → l1 = l2 := by
  intro l1
  induction l1 with
  | nil => intro l2 _ _ h; cases l2 <;> simp_all
  | cons a l ih =>
    intro l2 h1 h2 h
    cases l2 with
    | nil => simp at h
    | cons b l2 =>
      simp only [List.map_cons, List.cons.injEq] at h
      have ha : a < 10 := h1 a (by simp)
      have hb : b < 10 := h2 b (by simp)
      have hab : a = b := by
        have hd := h.1
        interval_cases a <;> interval_cases b <;> first | rfl | (exact absurd hd (by decide))
      have := ih l2 (fun x hx => h1 x (by simp [hx])) (fun x hx => h2 x (by simp [hx])) h.2
      simp [hab, this]

theorem timeStr_inj {a b : Nat} (h : timeStr a = timeStr b) : a = b := by
  have hdata : ((timeDigits a).map digitCh) = ((timeDigits b).map digitCh) := by
    have := congrArg String.data h
    simpa [timeStr] using this
  have hlt : ∀ n, ∀ x ∈ timeDigits n, x < 10 := by
    intro n x hx
    rw [timeDigits_eq_digits] at hx
    exact Nat.digits_lt_base (by norm_num) hx
  have hdig : timeDigits a = timeDigits b :=
    map_digitCh_inj _ _ (hlt a) (hlt b) hdata
  rw [timeDigits_eq_digits, timeDigits_eq_digits] at hdig
  have := congrArg (Nat.ofDigits 10) hdig
  simpa [Nat.ofDigits_digits] using this

theorem gen_inj {a b : Nat} (h : generate_backup_filename a = generate_backup_filename b) :
    a = b := by
  apply timeStr_inj
  have hd := congrArg String.data h
  simp only [generate_backup_filename, String.data_append] at hd
  have := List.append_cancel_left (List.append_cancel_right hd)
  exact String.ext this

theorem ne_of_pattern {n m : String} (h : matchesPattern n = true)
    (hm : matchesPattern m = false) : n ≠ m := by
  intro he
  subst he
  rw [h] at hm
  cases hm

/-! Lemmas about directory entries. -/

@[simp] theorem entriesL_nil (d : FPath) : entriesL [] d = [] := rfl

theorem entriesL_cons (e : FPath × FNode) (l : List (FPath × FNode)) (d : FPath) :
    entriesL (e :: l) d =
      match e.1.getLast? with
      | some n => if e.1.dropLast = d then (n, e.2.mtime) :: entriesL l d else entriesL l d
      | none => entriesL l d := by
  cases h : e.1.getLast? with
  | none => simp [entriesL, List.filterMap_cons, h]
  | some n =>
    by_cases hd : e.1.dropLast = d <;>
      simp [entriesL, List.filterMap_cons, h, hd]

theorem entriesL_cons_concat (l : List (FPath × FNode)) (f : FNode) (q : FPath)
    (n : String) (d : FPath) :
    entriesL ((q ++ [n], f) :: l) d =
      if q = d then (n, f.mtime) :: entriesL l d else entriesL l d := by
  rw [entriesL_cons]
  simp [List.getLast?_concat, List.dropLast_concat]

theorem eq_concat_of_getLast? : ∀ {l : FPath} {a : String},
    l.getLast? = some a → l = l.dropLast ++ [a] := by
  intro l
  induction l with
  | nil => intro a h; cases h
  | cons x xs ih =>
    intro a h
    match xs, h with
    | [], h => simp at h; simp [h]
    | y :: ys, h =>
      have h' : (y :: ys).getLast? = some a := by
        rw [← h]; rfl
      have := ih h'
      calc x :: y :: ys = x :: ((y :: ys).dropLast ++ [a]) := by rw [← this]
        _ = (x :: y :: ys).dropLast ++ [a] := by simp

theorem entriesL_eraseF_concat (l : List (FPath × FNode)) (q : FPath) (n : String)
    (d : FPath) :
    entriesL (eraseF l (q ++ [n])) d =
      if q = d then (entriesL l d).filter (fun e => !(e.1 == n)) else entriesL l d := by
  induction l with
  | nil => simp [eraseF]
  | cons e l ih =>
    by_cases heq : e.1 = q ++ [n]
    · have he : eraseF (e :: l) (q ++ [n]) = eraseF l (q ++ [n]) := by
        simp [eraseF, List.filter_cons, heq]
      rw [he, ih]
      have hc : entriesL (e :: l) d =
          if q = d then (n, e.2.mtime) :: entriesL l d else entriesL l d := by
        have : e = (q ++ [n], e.2) := by
          cases e; simp_all
        rw [this]
        exact entriesL_cons_concat l e.2 q n d
      rw [hc]
      by_cases hqd : q = d <;> simp [hqd, List.filter_cons]
    · have he : eraseF (e :: l) (q ++ [n]) = e :: eraseF l (q ++ [n]) := by
        simp [eraseF, List.filter_cons, heq]
      rw [he, entriesL_cons, entriesL_cons, ih]
      cases hg : e.1.getLast? with
      | none => rfl
      | some m =>
        by_cases hd : e.1.dropLast = d
        · simp only [hd, if_pos rfl]
          by_cases hqd : q = d
          · have hmn : ¬(m = n) := by
              intro hmn
              apply heq
              rw [eq_concat_of_getLast? hg, hd, hqd, hmn]
            simp [hqd, List.filter_cons, hmn]
          · simp [hqd]
        · simp [hd]

theorem entriesIn_setFile_concat (fs : FS) (q : FPath) (n : String) (f : FNode)
    (d : FPath) :
    (fs.setFile (q ++ [n]) f).entriesIn d =
      if q = d then (n, f.mtime) :: (fs.entriesIn d).filter (fun e => !(e.1 == n))
      else fs.entriesIn d := by
  show entriesL ((q ++ [n], f) :: eraseF fs.files (q ++ [n])) d = _
  rw [entriesL_cons_concat, entriesL_eraseF_concat]
  by_cases hqd : q = d <;> simp [hqd, FS.entriesIn]

theorem entriesIn_removeFile_concat (fs : FS) (q : FPath) (n : String) (d : FPath) :
    (fs.removeFile (q ++ [n])).entriesIn d =
      if q = d then (fs.entriesIn d).filter (fun e => !(e.1 == n))
      else fs.entriesIn d := by
  show entriesL (eraseF fs.files (q ++ [n])) d = _
  rw [entriesL_eraseF_concat]
  rfl

theorem lookupF_eq_none_iff (l : List (FPath × FNode)) (p : FPath) :
    lookupF l p = none ↔ ∀ e ∈ l, e.1 ≠ p := by
  induction l with
  | nil => simp
  | cons e l ih =>
    rw [lookupF_cons]
    by_cases h : e.1 = p
    · simp only [if_pos h]
      constructor
      · intro hc; cases hc
      · intro ha
        exact absurd h (ha e (List.mem_cons_self e l))
    · rw [if_neg h, ih]
      constructor
      · intro ha x hx
        rcases List.mem_cons.mp hx with hx | hx
        · rw [hx]; exact h
        · exact ha x hx
      · intro ha x hx
        exact ha x (List.mem_cons_of_mem e hx)

theorem file?_eq_none_iff (fs : FS) (p : FPath) :
    fs.file? p = none ↔ ∀ e ∈ fs.files, e.1 ≠ p :=
  lookupF_eq_none_iff fs.files p

theorem mem_entriesL {l : List (FPath × FNode)} {d : FPath} {n : String} {t : Nat}
    (h : (n, t) ∈ entriesL l d) : ∃ f : FNode, (d ++ [n], f) ∈ l ∧ f.mtime = t := by
  rw [entriesL, List.mem_filterMap] at h
  obtain ⟨e, he, hf⟩ := h
  cases hg : e.1.getLast? with
  | none => rw [hg] at hf; simp at hf
  | some m =>
    rw [hg, Option.some_bind] at hf
    by_cases hd : e.1.dropLast = d
    · rw [if_pos hd] at hf
      have hmn : m = n := congrArg Prod.fst (Option.some.inj hf)
      have hmt : e.2.mtime = t := congrArg Prod.snd (Option.some.inj hf)
      refine ⟨e.2, ?_, hmt⟩
      have hkey : e.1 = d ++ [n] := by
        rw [eq_concat_of_getLast? hg, hd, hmn]
      rw [← hkey]
      exact he
    · rw [if_neg hd] at hf; cases hf

theorem filter_ne_of_nomatch {n : String}
    (h : matchesPattern n = false) (l : List (String × Nat)) :
    (l.filter (fun e => !(e.1 == n))).filter (fun e => matchesPattern e.1)
      = l.filter (fun e => matchesPattern e.1) := by
  rw [List.filter_filter]
  apply List.filter_congr
  intro e _
  by_cases hp : matchesPattern e.1
  · have hne : ¬(e.1 = n) := by
      intro hc; rw [hc, h] at hp; cases hp
    simp [hp, hne]
  · simp [hp]

theorem patternEntries_setFile_nomatch (fs : FS) (q : FPath) {n : String} (f : FNode)
    (d : FPath) (h : matchesPattern n = false) :
    patternEntries (fs.setFile (q ++ [n]) f) d = patternEntries fs d := by
  rw [patternEntries, entriesIn_setFile_concat]
  by_cases hqd : q = d
  · rw [if_pos hqd, List.filter_cons, if_neg (by simp [h])]
    exact filter_ne_of_nomatch h _
  · rw [if_neg hqd]; rfl

theorem patternEntries_removeFile_nomatch (fs : FS) (q : FPath) {n : String}
    (d : FPath) (h : matchesPattern n = false) :
    patternEntries (fs.removeFile (q ++ [n])) d = patternEntries fs d := by
  rw [patternEntries, entriesIn_removeFile_concat]
  by_cases hqd : q = d
  · rw [if_pos hqd]
    exact filter_ne_of_nomatch h _
  · rw [if_neg hqd]; rfl

theorem patternEntries_setFile_fresh (fs : FS) (d : FPath) {n : String} (f : FNode)
    (hm : matchesPattern n = true) (hfresh : fs.file? (d ++ [n]) = none) :
    patternEntries (fs.setFile (d ++ [n]) f) d = (n, f.mtime) :: patternEntries fs d := by
  rw [patternEntries, entriesIn_setFile_concat, if_pos rfl, List.filter_cons,
    if_pos (by simp [hm])]
  have hnone : (fs.entriesIn d).filter (fun e => !(e.1 == n)) = fs.entriesIn d := by
    apply List.filter_eq_self.mpr
    intro e he
    have hne : e.1 ≠ n := by
      intro hc
      have hmem : ((n : String), e.2) ∈ entriesL fs.files d := by
        rw [← hc]
        have : (e.1, e.2) = e := rfl
        rw [this]
        exact he
      obtain ⟨g, hg, _⟩ := mem_entriesL hmem
      exact (file?_eq_none_iff fs (d ++ [n])).mp hfresh _ hg rfl
    simp [hne]
  rw [hnone]
  rfl

/-! Lemmas about the stable descending sort. -/

theorem mem_insertDesc {x y : String × Nat} : ∀ {l : List (String × Nat)},
    y ∈ insertDesc x l ↔ y = x ∨ y ∈ l := by
  intro l
  induction l with
  | nil => simp [insertDesc]
  | cons z l ih =>
    by_cases h : z.2 ≤ x.2 <;> simp [insertDesc, h, ih] <;> tauto

theorem insertDesc_perm (x : String × Nat) : ∀ (l : List (String × Nat)),
    (insertDesc x l).Perm (x :: l) := by
  intro l
  induction l with
  | nil => simp [insertDesc]
  | cons z l ih =>
    by_cases h : z.2 ≤ x.2
    · simp [insertDesc, h]
    · rw [insertDesc, if_neg h]
      exact (ih.cons z).trans (List.Perm.swap x z l)

theorem sortByMtimeDesc_perm : ∀ (l : List (String × Nat)),
    (sortByMtimeDesc l).Perm l := by
  intro l
  induction l with
  | nil => exact List.Perm.refl _
  | cons x l ih =>
    exact (insertDesc_perm x (sortByMtimeDesc l)).trans (ih.cons x)

theorem pairwise_insertDesc {x : String × Nat} : ∀ {l : List (String × Nat)},
    l.Pairwise (fun a b => b.2 ≤ a.2) →
    (insertDesc x l).Pairwise (fun a b => b.2 ≤ a.2) := by
  intro l
  induction l with
  | nil => intro _; simp [insertDesc]
  | cons y l ih =>
    intro h
    rw [List.pairwise_cons] at h
    by_cases hle : y.2 ≤ x.2
    · rw [insertDesc, if_pos hle, List.pairwise_cons]
      constructor
      · intro z hz
        rcases List.mem_cons.mp hz with hz | hz
        · rw [hz]; exact hle
        · exact le_trans (h.1 z hz) hle
      · exact List.pairwise_cons.mpr h
    · rw [insertDesc, if_neg hle, List.pairwise_cons]
      constructor
      · intro z hz
        rcases mem_insertDesc.mp hz with hz | hz
        · rw [hz]; omega
        · exact h.1 z hz
      · exact ih h.2

theorem sortByMtimeDesc_pairwise : ∀ (l : List (String × Nat)),
    (sortByMtimeDesc l).Pairwise (fun a b => b.2 ≤ a.2) := by
  intro l
  induction l with
  | nil => simp [sortByMtimeDesc]
  | cons x l ih => exact pairwise_insertDesc ih

/-! Derived paths and small specification lemmas for the primitives. -/

theorem fsRead_some {E : Env} {fs : FS} {p : FPath} {f : FNode}
    (hf : fs.file? p = some f) (h : E.failRead p = false) :
    fsRead E fs p = .ok f.content := by
  simp [fsRead, hf, h]

theorem fsRead_notFound {E : Env} {fs : FS} {p : FPath}
    (hf : fs.file? p = none) (h : fs.dirExists p = false) :
    fsRead E fs p = .notFound := by
  simp [fsRead, hf, h]

theorem fsCreateDirAll_of_dir {E : Env} {fs : FS} {p : FPath}
    (h : p ∈ fs.dirs) : fsCreateDirAll E fs p = some fs := by
  simp [fsCreateDirAll, FS.dirExists, h]

theorem fsCreateDirAll_fresh {E : Env} {fs : FS} {p : FPath}
    (hd : p ∉ fs.dirs) (hf : fs.file? p = none) (ho : E.failCreateDir p = false) :
    fsCreateDirAll E fs p = some (fs.addDir p) := by
  simp [fsCreateDirAll, FS.dirExists, FS.fileExists, hd, hf, ho]

theorem fsWrite_some {E : Env} {fs : FS} {p : FPath} (d : FileData) (now : Nat)
    (h : E.failWrite p = false) (hpd : p.dropLast ∈ fs.dirs) (hnd : p ∉ fs.dirs) :
    fsWrite E fs p d now = some (fs.setFile p ⟨d, now⟩) := by
  simp [fsWrite, h, FS.dirExists, hpd, hnd]

theorem fsRename_some {E : Env} {fs : FS} {src dst : FPath} {f : FNode}
    (hf : fs.file? src = some f) (h : E.failRename dst = false) :
    fsRename E fs src dst = some ((fs.removeFile src).setFile dst f) := by
  simp [fsRename, hf, h]

theorem fsCopy_some {E : Env} {fs : FS} {src dst : FPath} {f : FNode} (now : Nat)
    (hf : fs.file? src = some f) (h : E.failCopy dst = false)
    (hpd : dst.dropLast ∈ fs.dirs) (hnd : dst ∉ fs.dirs) :
    fsCopy E fs src dst now = some (fs.setFile dst ⟨f.content, now⟩) := by
  simp [fsCopy, hf, h, FS.dirExists, hpd, hnd]

theorem pathExists_of_file {fs : FS} {p : FPath} {f : FNode}
    (h : fs.file? p = some f) : fs.pathExists p = true := by
  simp [FS.pathExists, FS.fileExists, h]

theorem pathExists_none {fs : FS} {p : FPath}
    (hf : fs.file? p = none) (hd : fs.dirExists p = false) :
    fs.pathExists p = false := by
  simp [FS.pathExists, FS.fileExists, hf, hd]

theorem load_config_of_base {E : Env} {fs : FS} {cfg : AppConfig} (now : Nat)
    (h1 : (fs.file? (config_file_path E)).map FNode.content = some (.config cfg))
    (h2 : cfg.data_dir ≠ [])
    (h3 : E.failRead (config_file_path E) = false) :
    load_config E fs now = (fs, .ok cfg) := by
  obtain ⟨f, hf, hc⟩ : ∃ f, fs.file? (config_file_path E) = some f ∧
      f.content = .config cfg := by
    cases hx : fs.file? (config_file_path E) with
    | none => rw [hx] at h1; cases h1
    | some f => rw [hx] at h1; exact ⟨f, rfl, Option.some.inj h1⟩
  rw [load_config]
  rw [if_pos (pathExists_of_file hf), fsRead_some hf h3, hc]
  simp [h2]

@[simp] theorem removeFile_setFile_self (fs : FS) (p : FPath) (f : FNode) :
    (fs.setFile p f).removeFile p = fs.removeFile p := by
  show FS.mk (eraseF ((p, f) :: eraseF fs.files p) p) fs.dirs = _
  have h1 : eraseF ((p, f) :: eraseF fs.files p) p = eraseF (eraseF fs.files p) p := by
    simp [eraseF, List.filter_cons]
  have h2 : eraseF (eraseF fs.files p) p = eraseF fs.files p := by
    simp [eraseF, List.filter_filter]
  rw [h1, h2]
  rfl

theorem save_config_spec (E : Env) (fs : FS) (now : Nat) (c : AppConfig)
    (h1 : E.configDir ∈ fs.dirs)
    (h2 : E.failWrite (tmpConfigPath E) = false)
    (h3 : tmpConfigPath E ∉ fs.dirs)
    (h4 : E.failRename (config_file_path E) = false) :
    save_config E fs now c =
      ((fs.removeFile (tmpConfigPath E)).setFile (config_file_path E)
        ⟨.config c, now⟩, .ok ()) := by
  have hdl : (config_file_path E).dropLast = E.configDir := by
    simp [config_file_path, List.dropLast_concat]
  have hdl2 : (tmpConfigPath E).dropLast = E.configDir := by
    simp [tmpConfigPath, List.dropLast_concat]
  have hw := @fsWrite_some E fs (tmpConfigPath E)
    (FileData.config c) now h2 (by rw [hdl2]; exact h1) h3
  have hr := @fsRename_some E
    (fs.setFile (tmpConfigPath E) ⟨.config c, now⟩)
    (tmpConfigPath E) (config_file_path E)
    ⟨.config c, now⟩ (by simp) h4
  simp only [tmpConfigPath] at hw hr
  simp only [save_config, hdl, fsCreateDirAll_of_dir h1, hw, hr,
    removeFile_setFile_self, tmpConfigPath]

/-! Removal of a batch of paths (the pruning loop). -/

@[simp] theorem removePaths_nil (fs : FS) : removePaths fs [] = fs := rfl

@[simp] theorem removePaths_cons (fs : FS) (p : FPath) (ps : List FPath) :
    removePaths fs (p :: ps) = removePaths (fs.removeFile p) ps := rfl

@[simp] theorem dirs_removePaths : ∀ (ps : List FPath) (fs : FS),
    (removePaths fs ps).dirs = fs.dirs := by
  intro ps
  induction ps with
  | nil => intro fs; rfl
  | cons p ps ih => intro fs; rw [removePaths_cons, ih]; rfl

theorem file?_removePaths : ∀ (ps : List FPath) (fs : FS) (q : FPath),
    (removePaths fs ps).file? q = if q ∈ ps then none else fs.file? q := by
  intro ps
  induction ps with
  | nil => intro fs q; simp
  | cons p ps ih =>
    intro fs q
    rw [removePaths_cons, ih, file?_removeFile]
    by_cases h1 : q ∈ ps
    · simp [h1]
    · by_cases h2 : q = p <;> simp [h1, h2]

theorem foldl_remove_eq (E : Env) (bdir : FPath) :
    ∀ (es : List (String × Nat)) (fs : FS),
    (∀ e ∈ es, E.failRemove (bdir ++ [e.1]) = false) →
    es.foldl (fun acc e =>
      match fsRemoveFile E acc (bdir ++ [e.1]) with
      | none => acc
      | some acc' => acc') fs
      = removePaths fs (es.map (fun e => bdir ++ [e.1])) := by
  intro es
  induction es with
  | nil => intro fs _; rfl
  | cons e es ih =>
    intro fs h
    rw [List.foldl_cons, List.map_cons, removePaths_cons]
    have he : fsRemoveFile E fs (bdir ++ [e.1]) = some (fs.removeFile (bdir ++ [e.1])) := by
      rw [fsRemoveFile, if_neg]
      simp [h e (List.mem_cons_self e es)]
    rw [he]
    exact ih _ (fun x hx => h x (List.mem_cons_of_mem e hx))

theorem patternEntries_removeNames (d : FPath) :
    ∀ (ns : List String) (fs : FS),
    patternEntries (removePaths fs (ns.map (fun n => d ++ [n]))) d
      = (patternEntries fs d).filter (fun e => !(ns.contains e.1)) := by
  intro ns
  induction ns with
  | nil =>
    intro fs
    rw [List.map_nil, removePaths_nil]
    have : ∀ e ∈ patternEntries fs d, (!(([] : List String).contains e.1)) = true := by
      intro e _; rfl
    rw [List.filter_eq_self.mpr this]
  | cons n ns ih =>
    intro fs
    rw [List.map_cons, removePaths_cons, ih]
    have hrm : patternEntries (fs.removeFile (d ++ [n])) d
        = (patternEntries fs d).filter (fun e => !(e.1 == n)) := by
      rw [patternEntries, entriesIn_removeFile_concat, if_pos rfl, List.filter_filter,
        patternEntries, List.filter_filter]
      apply List.filter_congr
      intro e _
      rw [Bool.and_comm]
    rw [hrm, List.filter_filter]
    apply List.filter_congr
    intro e _
    rw [List.contains_cons, Bool.not_or, Bool.and_comm]

/-! Characterization of cleanup_old_backups. -/

theorem fsReadDir_some {E : Env} {fs : FS} {d : FPath}
    (hrd : E.failReadDir d = false) (hdir : d ∈ fs.dirs) :
    fsReadDir E fs d = some (fs.entriesIn d) := by
  simp [fsReadDir, hrd, FS.dirExists, hdir]

theorem cleanup_le (E : Env) (fs : FS) (bdir : FPath) (keep : Nat)
    (hrd : E.failReadDir bdir = false) (hdir : bdir ∈ fs.dirs)
    (hle : (patternEntries fs bdir).length ≤ keep) :
    cleanup_old_backups E fs bdir keep = (fs, .ok ()) := by
  have hle' : ((fs.entriesIn bdir).filter (fun e => matchesPattern e.1)).length ≤ keep := hle
  simp only [cleanup_old_backups, fsReadDir_some hrd hdir, if_pos hle']

theorem cleanup_gt (E : Env) (fs : FS) (bdir : FPath) (keep : Nat)
    (hrd : E.failReadDir bdir = false) (hdir : bdir ∈ fs.dirs)
    (hgt : keep < (patternEntries fs bdir).length)
    (hrem : ∀ e ∈ (sortByMtimeDesc (patternEntries fs bdir)).drop keep,
      E.failRemove (bdir ++ [e.1]) = false) :
    cleanup_old_backups E fs bdir keep
      = (removePaths fs (((sortByMtimeDesc (patternEntries fs bdir)).drop keep).map
          (fun e => bdir ++ [e.1])), .ok ()) := by
  have hgt' : ¬ ((fs.entriesIn bdir).filter (fun e => matchesPattern e.1)).length ≤ keep :=
    not_le.mpr hgt
  simp only [cleanup_old_backups, fsReadDir_some hrd hdir, if_neg hgt']
  have h := foldl_remove_eq E bdir ((sortByMtimeDesc (patternEntries fs bdir)).drop keep)
    fs hrem
  simp only [patternEntries, FS.entriesIn] at h ⊢
  rw [h]

theorem cleanup_ok_of_listing (E : Env) (fs : FS) (bdir : FPath) (keep : Nat)
    (hrd : E.failReadDir bdir = false) (hdir : bdir ∈ fs.dirs) :
    (cleanup_old_backups E fs bdir keep).2 = .ok () := by
  simp only [cleanup_old_backups, fsReadDir_some hrd hdir]
  split <;> rfl

theorem filter_take_append_drop {α : Type} (p : α → Bool) (l : List α) (k : Nat)
    (hp : ∀ e ∈ l.take k, p e = true) (hq : ∀ e ∈ l.drop k, ¬ p e = true) :
    l.filter p = l.take k := by
  conv_lhs => rw [← List.take_append_drop k l]
  rw [List.filter_append, List.filter_eq_self.mpr hp,
    List.filter_eq_nil_iff.mpr hq, List.append_nil]

theorem filter_out_drop (B : List (String × Nat)) (keep : Nat)
    (hnod : (B.map Prod.fst).Nodup) :
    (B.filter (fun e =>
        !((((sortByMtimeDesc B).drop keep).map Prod.fst).contains e.1))).Perm
      ((sortByMtimeDesc B).take keep) := by
  have hperm : (sortByMtimeDesc B).Perm B := sortByMtimeDesc_perm B
  have hnodS : ((sortByMtimeDesc B).map Prod.fst).Nodup :=
    ((hperm.map Prod.fst).nodup_iff).mpr hnod
  have hsplit : sortByMtimeDesc B
      = (sortByMtimeDesc B).take keep ++ (sortByMtimeDesc B).drop keep :=
    (List.take_append_drop keep (sortByMtimeDesc B)).symm
  have hdisj : ∀ x ∈ ((sortByMtimeDesc B).take keep).map Prod.fst,
      x ∉ ((sortByMtimeDesc B).drop keep).map Prod.fst := by
    have h2 := hnodS
    rw [hsplit, List.map_append] at h2
    intro x hx hx2
    exact (List.disjoint_of_nodup_append h2) hx hx2
  have hp : ∀ e ∈ (sortByMtimeDesc B).take keep,
      (!((((sortByMtimeDesc B).drop keep).map Prod.fst).contains e.1)) = true := by
    intro e he
    have hm : e.1 ∉ ((sortByMtimeDesc B).drop keep).map Prod.fst :=
      hdisj e.1 (List.mem_map_of_mem Prod.fst he)
    have hc : ((((sortByMtimeDesc B).drop keep).map Prod.fst).contains e.1) = false := by
      rw [← Bool.not_eq_true]
      intro hcon
      exact hm (List.elem_iff.mp hcon)
    rw [hc]
    rfl
  have hq : ∀ e ∈ (sortByMtimeDesc B).drop keep,
      ¬ ((!((((sortByMtimeDesc B).drop keep).map Prod.fst).contains e.1)) = true) := by
    intro e he
    have hm : e.1 ∈ ((sortByMtimeDesc B).drop keep).map Prod.fst :=
      List.mem_map_of_mem Prod.fst he
    have hc : ((((sortByMtimeDesc B).drop keep).map Prod.fst).contains e.1) = true :=
      List.elem_iff.mpr hm
    rw [hc]
    simp
  refine List.Perm.trans ((hperm.filter _).symm) ?_
  rw [filter_take_append_drop _ _ keep hp hq]

/-! Well-formed states along the save path. -/

theorem lookupF_some_mem : ∀ {l : List (FPath × FNode)} {p : FPath} {f : FNode},
    lookupF l p = some f → (p, f) ∈ l := by
  intro l
  induction l with
  | nil => intro p f h; cases h
  | cons e l ih =>
    intro p f h
    rw [lookupF_cons] at h
    by_cases he : e.1 = p
    · rw [if_pos he] at h
      have h2 : e.2 = f := Option.some.inj h
      have h3 : e = (p, f) := by
        cases e with
        | mk a b =>
          simp only at he h2
          rw [he, h2]
      rw [← h3]
      exact List.mem_cons_self e l
    · rw [if_neg he] at h
      exact List.mem_cons_of_mem e (ih h)

theorem mem_entriesL_intro {l : List (FPath × FNode)} {d : FPath} {n : String}
    {f : FNode} (h : (d ++ [n], f) ∈ l) : (n, f.mtime) ∈ entriesL l d := by
  rw [entriesL, List.mem_filterMap]
  refine ⟨(d ++ [n], f), h, ?_⟩
  simp [List.getLast?_concat, List.dropLast_concat]

theorem nodup_keys_eraseF {l : List (FPath × FNode)} (p : FPath)
    (h : (l.map Prod.fst).Nodup) : ((eraseF l p).map Prod.fst).Nodup :=
  List.Nodup.sublist (List.Sublist.map Prod.fst (List.filter_sublist l)) h

theorem not_mem_keys_eraseF (l : List (FPath × FNode)) (p : FPath) :
    p ∉ (eraseF l p).map Prod.fst := by
  intro h
  rw [List.mem_map] at h
  obtain ⟨e, he, hk⟩ := h
  rw [eraseF, List.mem_filter] at he
  rw [hk] at he
  simp at he

theorem nodup_keys_setFile (fs : FS) (p : FPath) (f : FNode)
    (h : (fs.files.map Prod.fst).Nodup) :
    ((fs.setFile p f).files.map Prod.fst).Nodup := by
  show ((p, f) :: eraseF fs.files p).map Prod.fst |>.Nodup
  rw [List.map_cons]
  exact List.nodup_cons.mpr ⟨not_mem_keys_eraseF fs.files p, nodup_keys_eraseF p h⟩

theorem nodup_keys_removeFile (fs : FS) (p : FPath)
    (h : (fs.files.map Prod.fst).Nodup) :
    ((fs.removeFile p).files.map Prod.fst).Nodup :=
  nodup_keys_eraseF p h

theorem nodup_keys_removePaths : ∀ (ps : List FPath) (fs : FS),
    (fs.files.map Prod.fst).Nodup → ((removePaths fs ps).files.map Prod.fst).Nodup := by
  intro ps
  induction ps with
  | nil => intro fs h; exact h
  | cons p ps ih =>
    intro fs h
    rw [removePaths_cons]
    exact ih _ (nodup_keys_removeFile fs p h)

theorem map_snd_form {l : List (String × Nat)}
    (h : ∀ e ∈ l, e = (generate_backup_filename e.2, e.2)) :
    (l.map Prod.snd).map (fun t => (generate_backup_filename t, t)) = l := by
  induction l with
  | nil => rfl
  | cons e l ih =>
    rw [List.map_cons, List.map_cons]
    rw [ih (fun x hx => h x (List.mem_cons_of_mem e hx))]
    rw [← h e (List.mem_cons_self e l)]

theorem pattern_DATA_FILE : matchesPattern DATA_FILE = false := by decide

theorem pattern_CONFIG_FILE : matchesPattern CONFIG_FILE = false := by decide

theorem pattern_tmpData : matchesPattern "cmd_notebook.json.tmp" = false := by decide

theorem pattern_tmpConfig : matchesPattern "app_config.json.tmp" = false := by decide

theorem pattern_writeTest : matchesPattern ".write_test" = false := by decide

/-! Specification of create_backup_if_changed. -/

theorem create_backup_noop (E : Env) (fs : FS) (cfg : AppConfig) (now : Nat) (c : String)
    (h1 : (fs.file? (config_file_path E)).map FNode.content = some (.config cfg))
    (h2 : cfg.data_dir ≠ [])
    (h3 : E.failRead (config_file_path E) = false)
    (hnd : dataPath cfg ∉ fs.dirs)
    (hskip : fs.file? (dataPath cfg) = none ∨
      (∃ t, fs.file? (dataPath cfg) = some ⟨.text c, t⟩ ∧
        E.failRead (dataPath cfg) = false)) :
    create_backup_if_changed E fs now c = (fs, .ok ()) := by
  have hlc := load_config_of_base (E := E) now h1 h2 h3
  rcases hskip with hnone | ⟨t, hsome, hread⟩
  · have hpe : fs.pathExists (dataPath cfg) = false :=
      pathExists_none hnone (by simp [FS.dirExists, hnd])
    rw [dataPath] at hpe
    simp only [create_backup_if_changed, data_file_path, hlc, hpe, Bool.not_false,
      if_true]
  · have hpe : fs.pathExists (dataPath cfg) = true := pathExists_of_file hsome
    have hread' := fsRead_some hsome hread
    rw [dataPath] at hpe hread'
    simp only [create_backup_if_changed, data_file_path, hlc, hpe, hread',
      Bool.not_true, Bool.false_eq_true, if_false, if_pos rfl]
    rw [if_pos trivial]

theorem configPath_ne_bpath (E : Env) (cfg : AppConfig) (t : Nat) :
    config_file_path E ≠ bdirPath cfg ++ [generate_backup_filename t] := by
  rw [config_file_path]
  exact concat_ne_concat_of_name_ne
    (Ne.symm (ne_of_pattern (matchesPattern_gen t) pattern_CONFIG_FILE))

theorem dataPath_ne_bpath (cfg cfg' : AppConfig) (t : Nat) :
    dataPath cfg ≠ bdirPath cfg' ++ [generate_backup_filename t] := by
  rw [dataPath]
  exact concat_ne_concat_of_name_ne
    (Ne.symm (ne_of_pattern (matchesPattern_gen t) pattern_DATA_FILE))

theorem gen_injective : Function.Injective generate_backup_filename :=
  fun _ _ h => gen_inj h

theorem create_backup_changed_spec (E : Env) (fs : FS) (cfg : AppConfig) (now : Nat)
    (c c0 : String) (t0 : Nat) (bts : List Nat)
    (hb : goodBase E fs cfg)
    (hd : fs.file? (dataPath cfg) = some ⟨.text c0, t0⟩)
    (hbk : goodBackups fs cfg bts)
    (hne : c0 ≠ c)
    (hrd : E.failRead (dataPath cfg) = false)
    (hcp : E.failCopy (bdirPath cfg ++ [generate_backup_filename now]) = false)
    (hrdd : E.failReadDir (bdirPath cfg) = false)
    (hlt : ∀ t ∈ bts, t < now)
    (hrem : ∀ t ∈ bts, E.failRemove (bdirPath cfg ++ [generate_backup_filename t]) = false)
    (hremn : E.failRemove (bdirPath cfg ++ [generate_backup_filename now]) = false) :
    ∃ fs' bts',
      create_backup_if_changed E fs now c = (fs', .ok ()) ∧
      goodBase E fs' cfg ∧
      fs'.file? (dataPath cfg) = fs.file? (dataPath cfg) ∧
      fs'.dirs = fs.dirs ∧
      goodBackups fs' cfg bts' ∧
      (∀ t ∈ bts', t ≤ now) ∧
      bts'.length = min (bts.length + 1) cfg.backup_count := by
  obtain ⟨hc1, hc2, hc3, hc4, hc5, hc6, hc7, hc8, hc9⟩ := hb
  obtain ⟨hperm, hnodbts⟩ := hbk
  have hlc := load_config_of_base (E := E) now hc1 hc2 hc3
  have hpe : fs.pathExists (dataPath cfg) = true := pathExists_of_file hd
  have hread' := fsRead_some hd hrd
  have hnow_bts : now ∉ bts := fun hmem => lt_irrefl now (hlt now hmem)
  -- the destination of the copy is fresh
  have hbne : fs.file? (bdirPath cfg ++ [generate_backup_filename now]) = none := by
    cases hx : fs.file? (bdirPath cfg ++ [generate_backup_filename now]) with
    | none => rfl
    | some f =>
      exfalso
      have hmem1 : (generate_backup_filename now, f.mtime) ∈ fs.entriesIn (bdirPath cfg) :=
        mem_entriesL_intro (lookupF_some_mem hx)
      have hmem2 : (generate_backup_filename now, f.mtime)
          ∈ patternEntries fs (bdirPath cfg) := by
        rw [patternEntries, List.mem_filter]
        exact ⟨hmem1, matchesPattern_gen now⟩
      obtain ⟨t, ht, hteq⟩ := List.mem_map.mp (hperm.mem_iff.mp hmem2)
      have htn : t = now := gen_inj (congrArg Prod.fst hteq)
      rw [htn] at ht
      exact hnow_bts ht
  have hbp_nd : bdirPath cfg ++ [generate_backup_filename now] ∉ fs.dirs := by
    intro hmem
    exact hc8 _ hmem (by rw [List.dropLast_concat])
  have hcopy := @fsCopy_some E fs (dataPath cfg)
    (bdirPath cfg ++ [generate_backup_filename now]) ⟨.text c0, t0⟩ now hd hcp
    (by rw [List.dropLast_concat]; exact hc5) hbp_nd
  -- names for the intermediate state
  have hcfg4 : (fs.setFile (bdirPath cfg ++ [generate_backup_filename now])
      ⟨.text c0, now⟩).file? (config_file_path E) = fs.file? (config_file_path E) := by
    rw [file?_setFile, if_neg (configPath_ne_bpath E cfg now)]
  have hlc4 : load_config E (fs.setFile (bdirPath cfg ++ [generate_backup_filename now])
      ⟨.text c0, now⟩) now
      = (fs.setFile (bdirPath cfg ++ [generate_backup_filename now])
          ⟨.text c0, now⟩, .ok cfg) :=
    load_config_of_base now (by rw [hcfg4]; exact hc1) hc2 hc3
  have hneq : ¬(FileData.text c0 = FileData.text c) := by
    intro hx
    exact hne (FileData.text.inj hx)
  -- the program reduces to cleanup on the post-copy state
  have hprog : create_backup_if_changed E fs now c
      = cleanup_old_backups E
          (fs.setFile (bdirPath cfg ++ [generate_backup_filename now]) ⟨.text c0, now⟩)
          (bdirPath cfg) cfg.backup_count := by
    rw [dataPath] at hpe hread'
    rw [dataPath, bdirPath] at hcopy
    rw [bdirPath] at hlc4
    simp only [create_backup_if_changed, data_file_path, backup_dir_path, hlc, hpe,
      Bool.not_true, Bool.false_eq_true, if_false, hread', if_neg hneq,
      fsCreateDirAll_of_dir (show cfg.data_dir ++ [BACKUP_DIR] ∈ fs.dirs from hc5),
      hcopy, hlc4, bdirPath]
  -- entries after the copy
  have hpe4 : patternEntries (fs.setFile (bdirPath cfg ++ [generate_backup_filename now])
      ⟨.text c0, now⟩) (bdirPath cfg)
      = (generate_backup_filename now, now) :: patternEntries fs (bdirPath cfg) :=
    patternEntries_setFile_fresh fs (bdirPath cfg) ⟨.text c0, now⟩
      (matchesPattern_gen now) hbne
  have hperm4 : (patternEntries (fs.setFile
      (bdirPath cfg ++ [generate_backup_filename now]) ⟨.text c0, now⟩)
      (bdirPath cfg)).Perm ((now :: bts).map (fun t => (generate_backup_filename t, t))) := by
    rw [hpe4, List.map_cons]
    exact hperm.cons _
  have hlen4 : (patternEntries (fs.setFile
      (bdirPath cfg ++ [generate_backup_filename now]) ⟨.text c0, now⟩)
      (bdirPath cfg)).length = bts.length + 1 := by
    rw [hperm4.length_eq, List.length_map, List.length_cons]
  have hdirs4 : (fs.setFile (bdirPath cfg ++ [generate_backup_filename now])
      ⟨.text c0, now⟩).dirs = fs.dirs := rfl
  have hdata4 : (fs.setFile (bdirPath cfg ++ [generate_backup_filename now])
      ⟨.text c0, now⟩).file? (dataPath cfg) = fs.file? (dataPath cfg) := by
    rw [file?_setFile, if_neg (dataPath_ne_bpath cfg cfg now)]
  have hnod4 : ((fs.setFile (bdirPath cfg ++ [generate_backup_filename now])
      ⟨.text c0, now⟩).files.map Prod.fst).Nodup := nodup_keys_setFile fs _ _ hc9
  by_cases hcase : bts.length + 1 ≤ cfg.backup_count
  · -- retention not exceeded: no pruning
    have hclean := cleanup_le E _ (bdirPath cfg) cfg.backup_count hrdd
      (by rw [hdirs4]; exact hc5) (by rw [hlen4]; exact hcase)
    refine ⟨_, now :: bts, hprog.trans hclean, ?_, hdata4, hdirs4, ⟨hperm4, ?_⟩, ?_, ?_⟩
    · exact ⟨by rw [hcfg4]; exact hc1, hc2, hc3, hc4, hc5, hc6, hc7, hc8, hnod4⟩
    · exact List.nodup_cons.mpr ⟨hnow_bts, hnodbts⟩
    · intro t ht
      rcases List.mem_cons.mp ht with ht | ht
      · rw [ht]
      · exact le_of_lt (hlt t ht)
    · rw [List.length_cons]
      omega
  · -- retention exceeded: prune down to backup_count newest
    have hgt : cfg.backup_count < (patternEntries (fs.setFile
        (bdirPath cfg ++ [generate_backup_filename now]) ⟨.text c0, now⟩)
        (bdirPath cfg)).length := by
      rw [hlen4]; omega
    have hform : ∀ e ∈ patternEntries (fs.setFile
        (bdirPath cfg ++ [generate_backup_filename now]) ⟨.text c0, now⟩) (bdirPath cfg),
        e = (generate_backup_filename e.2, e.2) ∧ e.2 ∈ now :: bts := by
      intro e he
      obtain ⟨t, ht, hteq⟩ := List.mem_map.mp (hperm4.mem_iff.mp he)
      have h1 : e.2 = t := (congrArg Prod.snd hteq).symm
      constructor
      · rw [h1]; exact hteq.symm
      · rw [h1]; exact ht
    have hSform : ∀ e ∈ sortByMtimeDesc (patternEntries (fs.setFile
        (bdirPath cfg ++ [generate_backup_filename now]) ⟨.text c0, now⟩) (bdirPath cfg)),
        e = (generate_backup_filename e.2, e.2) ∧ e.2 ∈ now :: bts := by
      intro e he
      exact hform e ((sortByMtimeDesc_perm _).subset he)
    have hrem' : ∀ e ∈ (sortByMtimeDesc (patternEntries (fs.setFile
        (bdirPath cfg ++ [generate_backup_filename now]) ⟨.text c0, now⟩)
        (bdirPath cfg))).drop cfg.backup_count,
        E.failRemove (bdirPath cfg ++ [e.1]) = false := by
      intro e he
      have heS := (List.drop_sublist cfg.backup_count _).subset he
      obtain ⟨hfm, hmem⟩ := hSform e heS
      have h1 : e.1 = generate_backup_filename e.2 := congrArg Prod.fst hfm
      rw [h1]
      rcases List.mem_cons.mp hmem with hx | hx
      · rw [hx]; exact hremn
      · exact hrem e.2 hx
    have hclean := cleanup_gt E _ (bdirPath cfg) cfg.backup_count hrdd
      (by rw [hdirs4]; exact hc5) hgt hrem'
    -- survivors are the backup_count newest
    have hnodnames : ((patternEntries (fs.setFile
        (bdirPath cfg ++ [generate_backup_filename now]) ⟨.text c0, now⟩)
        (bdirPath cfg)).map Prod.fst).Nodup := by
      have hpermn := hperm4.map Prod.fst
      rw [List.map_map] at hpermn
      have : (Prod.fst ∘ fun t => (generate_backup_filename t, t))
          = generate_backup_filename := rfl
      rw [this] at hpermn
      exact hpermn.nodup_iff.mpr
        ((List.nodup_cons.mpr ⟨hnow_bts, hnodbts⟩).map gen_injective)
    have hpaths : ((sortByMtimeDesc (patternEntries (fs.setFile
        (bdirPath cfg ++ [generate_backup_filename now]) ⟨.text c0, now⟩)
        (bdirPath cfg))).drop cfg.backup_count).map (fun e => bdirPath cfg ++ [e.1])
        = (((sortByMtimeDesc (patternEntries (fs.setFile
            (bdirPath cfg ++ [generate_backup_filename now]) ⟨.text c0, now⟩)
            (bdirPath cfg))).drop cfg.backup_count).map Prod.fst).map
          (fun n => bdirPath cfg ++ [n]) := by
      rw [List.map_map]
      rfl
    have hsurv : (patternEntries (removePaths (fs.setFile
        (bdirPath cfg ++ [generate_backup_filename now]) ⟨.text c0, now⟩)
        (((sortByMtimeDesc (patternEntries (fs.setFile
            (bdirPath cfg ++ [generate_backup_filename now]) ⟨.text c0, now⟩)
            (bdirPath cfg))).drop cfg.backup_count).map (fun e => bdirPath cfg ++ [e.1])))
        (bdirPath cfg)).Perm
        ((sortByMtimeDesc (patternEntries (fs.setFile
            (bdirPath cfg ++ [generate_backup_filename now]) ⟨.text c0, now⟩)
            (bdirPath cfg))).take cfg.backup_count) := by
      rw [hpaths, patternEntries_removeNames]
      exact filter_out_drop _ cfg.backup_count hnodnames
    have hnotin : ∀ q : FPath,
        (∀ t : Nat, q ≠ bdirPath cfg ++ [generate_backup_filename t]) →
        q ∉ ((sortByMtimeDesc (patternEntries (fs.setFile
            (bdirPath cfg ++ [generate_backup_filename now]) ⟨.text c0, now⟩)
            (bdirPath cfg))).drop cfg.backup_count).map
          (fun e => bdirPath cfg ++ [e.1]) := by
      intro q hq hmem
      obtain ⟨e, he, heq⟩ := List.mem_map.mp hmem
      obtain ⟨hfm, _⟩ := hSform e ((List.drop_sublist _ _).subset he)
      have h1 : e.1 = generate_backup_filename e.2 := congrArg Prod.fst hfm
      rw [h1] at heq
      exact hq e.2 heq.symm
    have htakeform : ∀ e ∈ (sortByMtimeDesc (patternEntries (fs.setFile
        (bdirPath cfg ++ [generate_backup_filename now]) ⟨.text c0, now⟩)
        (bdirPath cfg))).take cfg.backup_count,
        e = (generate_backup_filename e.2, e.2) :=
      fun e he => (hSform e ((List.take_sublist _ _).subset he)).1
    have hsndperm : ((sortByMtimeDesc (patternEntries (fs.setFile
        (bdirPath cfg ++ [generate_backup_filename now]) ⟨.text c0, now⟩)
        (bdirPath cfg))).map Prod.snd).Perm (now :: bts) := by
      have h1 := (sortByMtimeDesc_perm (patternEntries (fs.setFile
        (bdirPath cfg ++ [generate_backup_filename now]) ⟨.text c0, now⟩)
        (bdirPath cfg))).map Prod.snd
      have h2 := hperm4.map Prod.snd
      rw [List.map_map] at h2
      have h3 : (Prod.snd ∘ fun t : Nat => (generate_backup_filename t, t)) = id := rfl
      rw [h3, List.map_id] at h2
      exact h1.trans h2
    have hdirs5 : (removePaths (fs.setFile
        (bdirPath cfg ++ [generate_backup_filename now]) ⟨.text c0, now⟩)
        (((sortByMtimeDesc (patternEntries (fs.setFile
            (bdirPath cfg ++ [generate_backup_filename now]) ⟨.text c0, now⟩)
            (bdirPath cfg))).drop cfg.backup_count).map
          (fun e => bdirPath cfg ++ [e.1]))).dirs = fs.dirs := by
      rw [dirs_removePaths, hdirs4]
    have hcp5 : (removePaths (fs.setFile
        (bdirPath cfg ++ [generate_backup_filename now]) ⟨.text c0, now⟩)
        (((sortByMtimeDesc (patternEntries (fs.setFile
            (bdirPath cfg ++ [generate_backup_filename now]) ⟨.text c0, now⟩)
            (bdirPath cfg))).drop cfg.backup_count).map
          (fun e => bdirPath cfg ++ [e.1]))).file? (config_file_path E)
        = fs.file? (config_file_path E) := by
      rw [file?_removePaths, if_neg (hnotin _ (configPath_ne_bpath E cfg)), hcfg4]
    refine ⟨_, ((sortByMtimeDesc (patternEntries (fs.setFile
        (bdirPath cfg ++ [generate_backup_filename now]) ⟨.text c0, now⟩)
        (bdirPath cfg))).take cfg.backup_count).map Prod.snd,
      hprog.trans hclean, ?_, ?_, hdirs5, ⟨?_, ?_⟩, ?_, ?_⟩
    · refine ⟨by rw [hcp5]; exact hc1, hc2, hc3, ?_, ?_, ?_, ?_, ?_, ?_⟩
      · rw [hdirs5]; exact hc4
      · rw [hdirs5]; exact hc5
      · rw [hdirs5]; exact hc6
      · rw [hdirs5]; exact hc7
      · rw [hdirs5]; exact hc8
      · exact nodup_keys_removePaths _ _ hnod4
    · rw [file?_removePaths, if_neg (hnotin _ (dataPath_ne_bpath cfg cfg)), hdata4]
    · rw [map_snd_form htakeform]
      exact hsurv
    · rw [List.map_take]
      exact List.Nodup.sublist (List.take_sublist _ _)
        (hsndperm.nodup_iff.mpr (List.nodup_cons.mpr ⟨hnow_bts, hnodbts⟩))
    · intro t ht
      obtain ⟨e, he, hsnd⟩ := List.mem_map.mp ht
      obtain ⟨_, hmem⟩ := hSform e ((List.take_sublist _ _).subset he)
      rw [← hsnd]
      rcases List.mem_cons.mp hmem with hx | hx
      · rw [hx]
      · exact le_of_lt (hlt _ hx)
    · rw [List.length_map, List.length_take, (sortByMtimeDesc_perm _).length_eq, hlen4]
      omega

/-! Specification of one successful save_state call on a well-formed state. -/

theorem save_state_step (E : Env) (fs : FS) (cfg : AppConfig) (now : Nat) (c : String)
    (dataF : Option (String × Nat)) (bts : List Nat)
    (hb : goodBase E fs cfg)
    (hd : goodData fs cfg dataF)
    (hbk : goodBackups fs cfg bts)
    (hrd : E.failRead (dataPath cfg) = false)
    (hw : E.failWrite (tmpDataPath cfg) = false)
    (hrn : E.failRename (dataPath cfg) = false)
    (hcp : E.failCopy (bdirPath cfg ++ [generate_backup_filename now]) = false)
    (hrdd : E.failReadDir (bdirPath cfg) = false)
    (hlt : ∀ t ∈ bts, t < now)
    (hrem : ∀ t ∈ bts, E.failRemove (bdirPath cfg ++ [generate_backup_filename t]) = false)
    (hremn : E.failRemove (bdirPath cfg ++ [generate_backup_filename now]) = false) :
    ∃ fs' bts',
      save_state E fs now c = (fs', .ok ()) ∧
      goodBase E fs' cfg ∧
      goodData fs' cfg (some (c, now)) ∧
      goodBackups fs' cfg bts' ∧
      (∀ t ∈ bts', t ≤ now) ∧
      bts'.length = (match dataF with
        | none => bts.length
        | some ct => if ct.1 = c then bts.length
          else min (bts.length + 1) cfg.backup_count) := by
  have hmid : ∃ fs3 bts',
      create_backup_if_changed E fs now c = (fs3, .ok ()) ∧
      goodBase E fs3 cfg ∧
      fs3.dirs = fs.dirs ∧
      goodBackups fs3 cfg bts' ∧
      (∀ t ∈ bts', t ≤ now) ∧
      bts'.length = (match dataF with
        | none => bts.length
        | some ct => if ct.1 = c then bts.length
          else min (bts.length + 1) cfg.backup_count) := by
    cases dataF with
    | none =>
      simp only [goodData] at hd
      exact ⟨fs, bts, create_backup_noop E fs cfg now c hb.1 hb.2.1 hb.2.2.1
        hb.2.2.2.2.2.1 (Or.inl hd), hb, rfl, hbk,
        fun t ht => le_of_lt (hlt t ht), rfl⟩
    | some ct =>
      simp only [goodData] at hd
      by_cases hcc : ct.1 = c
      · have hd' : fs.file? (dataPath cfg) = some ⟨.text c, ct.2⟩ := by
          rw [← hcc]; exact hd
        refine ⟨fs, bts, create_backup_noop E fs cfg now c hb.1 hb.2.1 hb.2.2.1
          hb.2.2.2.2.2.1 (Or.inr ⟨ct.2, hd', hrd⟩), hb, rfl, hbk,
          fun t ht => le_of_lt (hlt t ht), ?_⟩
        show bts.length = if ct.1 = c then bts.length
          else min (bts.length + 1) cfg.backup_count
        rw [if_pos hcc]
      · obtain ⟨fs3, bts', heq, hgb, _, hdirs, hgbk, hbound, hlen⟩ :=
          create_backup_changed_spec E fs cfg now c ct.1 ct.2 bts hb hd hbk hcc
            hrd hcp hrdd hlt hrem hremn
        refine ⟨fs3, bts', heq, hgb, hdirs, hgbk, hbound, ?_⟩
        show bts'.length = if ct.1 = c then bts.length
          else min (bts.length + 1) cfg.backup_count
        rw [if_neg hcc]
        exact hlen
  obtain ⟨fs3, bts', hbeq, hgb3, hdirs3, hgbk3, hbound3, hlen3⟩ := hmid
  obtain ⟨g1, g2, g3, g4, g5, g6, g7, g8, g9⟩ := hgb3
  have hlc := load_config_of_base (E := E) now hb.1 hb.2.1 hb.2.2.1
  have hw4 : fsWrite E fs3 (tmpDataPath cfg) (.text c) now
      = some (fs3.setFile (tmpDataPath cfg) ⟨.text c, now⟩) :=
    fsWrite_some _ now hw (by rw [tmpDataPath, List.dropLast_concat]; exact g4) g7
  have hr5 : fsRename E (fs3.setFile (tmpDataPath cfg) ⟨.text c, now⟩)
      (tmpDataPath cfg) (dataPath cfg)
      = some ((fs3.removeFile (tmpDataPath cfg)).setFile (dataPath cfg)
          ⟨.text c, now⟩) := by
    rw [fsRename_some (f := ⟨.text c, now⟩) (by simp) hrn, removeFile_setFile_self]
  have hseq : save_state E fs now c
      = ((fs3.removeFile (tmpDataPath cfg)).setFile (dataPath cfg)
          ⟨.text c, now⟩, .ok ()) := by
    rw [tmpDataPath] at hw4 hr5
    rw [dataPath] at hr5
    simp only [save_state, data_file_path, hlc, List.dropLast_concat,
      fsCreateDirAll_of_dir hb.2.2.2.1, hbeq, hw4, hr5, dataPath, tmpDataPath]
  have hcpne1 : config_file_path E ≠ dataPath cfg := by
    rw [config_file_path, dataPath]
    exact concat_ne_concat_of_name_ne (by decide)
  have hcpne2 : config_file_path E ≠ tmpDataPath cfg := by
    rw [config_file_path, tmpDataPath]
    exact concat_ne_concat_of_name_ne (by decide)
  refine ⟨_, bts', hseq, ?_, ?_, ?_, hbound3, hlen3⟩
  · refine ⟨?_, hb.2.1, hb.2.2.1, ?_, ?_, ?_, ?_, ?_, ?_⟩
    · rw [file?_setFile, if_neg hcpne1, file?_removeFile, if_neg hcpne2]
      exact g1
    · rw [dirs_setFile, dirs_removeFile]; exact g4
    · rw [dirs_setFile, dirs_removeFile]; exact g5
    · rw [dirs_setFile, dirs_removeFile]; exact g6
    · rw [dirs_setFile, dirs_removeFile]; exact g7
    · rw [dirs_setFile, dirs_removeFile]; exact g8
    · exact nodup_keys_setFile _ _ _ (nodup_keys_removeFile _ _ g9)
  · show ((fs3.removeFile (tmpDataPath cfg)).setFile (dataPath cfg)
        ⟨.text c, now⟩).file? (dataPath cfg) = some ⟨.text c, now⟩
    rw [file?_setFile, if_pos rfl]
  · obtain ⟨hp3, hn3⟩ := hgbk3
    constructor
    · have e1 : patternEntries ((fs3.removeFile (tmpDataPath cfg)).setFile
          (dataPath cfg) ⟨.text c, now⟩) (bdirPath cfg)
          = patternEntries (fs3.removeFile (tmpDataPath cfg)) (bdirPath cfg) := by
        rw [dataPath]
        exact patternEntries_setFile_nomatch _ _ _ _ pattern_DATA_FILE
      have e2 : patternEntries (fs3.removeFile (tmpDataPath cfg)) (bdirPath cfg)
          = patternEntries fs3 (bdirPath cfg) := by
        rw [tmpDataPath]
        exact patternEntries_removeFile_nomatch _ _ _ pattern_tmpData
      rw [e1, e2]
      exact hp3
    · exact hn3

theorem runSaves_inv (E : Env) (cfg : AppConfig) (hben : benignFS E) :
    ∀ (l : List (String × Nat)) (fs : FS) (c0 : String) (t0 : Nat) (bts : List Nat),
    goodBase E fs cfg →
    goodData fs cfg (some (c0, t0)) →
    goodBackups fs cfg bts →
    bts.length ≤ cfg.backup_count →
    (∀ t ∈ bts, ∀ s ∈ l, t < s.2) →
    List.Pairwise (fun a b : String × Nat => a.2 < b.2) l →
    (∀ e ∈ l, c0 ≠ e.1) →
    List.Pairwise (fun a b : String × Nat => a.1 ≠ b.1) l →
    ∃ fs' bts2,
      runSaves E fs l = (fs', .ok ()) ∧
      goodBase E fs' cfg ∧
      goodBackups fs' cfg bts2 ∧
      bts2.length = min (bts.length + l.length) cfg.backup_count := by
  intro l
  induction l with
  | nil =>
    intro fs c0 t0 bts hb hd hbk hle _ _ _ _
    refine ⟨fs, bts, rfl, hb, hbk, ?_⟩
    simp only [List.length_nil]
    omega
  | cons e rest ih =>
    intro fs c0 t0 bts hb hd hbk hle hbound htimes hc0 hconts
    obtain ⟨hb1, hb2, hb3, hb4, hb5, hb6, hb7⟩ := hben
    obtain ⟨fs1, bts1, hsave, hgb1, hgd1, hgbk1, hbnd1, hlen1⟩ :=
      save_state_step E fs cfg e.2 e.1 (some (c0, t0)) bts hb hd hbk
        (hb5 _) (hb2 _) (hb3 _) (hb4 _) (hb6 _)
        (fun t ht => hbound t ht e (List.mem_cons_self e rest))
        (fun t _ => hb7 _) (hb7 _)
    have hne0 : ¬((c0, t0).1 = e.1) := hc0 e (List.mem_cons_self e rest)
    have hlen1' : bts1.length = min (bts.length + 1) cfg.backup_count := by
      simp only [hne0, if_false] at hlen1
      exact hlen1
    have hrel := List.pairwise_cons.mp htimes
    have hrelc := List.pairwise_cons.mp hconts
    obtain ⟨fs2, bts2, hrun, hgb2, hgbk2, hlen2⟩ :=
      ih fs1 e.1 e.2 bts1 hgb1 hgd1 hgbk1
        (by rw [hlen1']; exact Nat.min_le_right _ _)
        (fun t ht s hs => lt_of_le_of_lt (hbnd1 t ht) (hrel.1 s hs))
        hrel.2 (fun x hx => hrelc.1 x hx) hrelc.2
    refine ⟨fs2, bts2, ?_, hgb2, hgbk2, ?_⟩
    · have : e = (e.1, e.2) := rfl
      rw [runSaves]
      · rw [hsave]
        exact hrun
    · rw [hlen2, hlen1', List.length_cons]
      omega

/-! Inversion lemmas for the primitives. -/

theorem fsCreateDirAll_files {E : Env} {fs fs' : FS} {p : FPath}
    (h : fsCreateDirAll E fs p = some fs') : fs'.files = fs.files := by
  rw [fsCreateDirAll] at h
  split at h
  · injection h with h
    rw [← h]
  · split at h
    · cases h
    · injection h with h
      rw [← h]
      rfl

theorem fsWrite_inv {E : Env} {fs fs' : FS} {p : FPath} {d : FileData} {now : Nat}
    (h : fsWrite E fs p d now = some fs') : fs' = fs.setFile p ⟨d, now⟩ := by
  rw [fsWrite] at h
  split at h
  · cases h
  · exact (Option.some.inj h).symm

theorem fsRename_inv {E : Env} {fs fs' : FS} {src dst : FPath}
    (h : fsRename E fs src dst = some fs') :
    ∃ f, fs.file? src = some f ∧ fs' = (fs.removeFile src).setFile dst f := by
  rw [fsRename] at h
  cases hx : fs.file? src with
  | none => rw [hx] at h; cases h
  | some f =>
    rw [hx] at h
    simp only at h
    split at h
    · cases h
    · exact ⟨f, rfl, (Option.some.inj h).symm⟩

theorem fsCopy_inv {E : Env} {fs fs' : FS} {src dst : FPath} {now : Nat}
    (h : fsCopy E fs src dst now = some fs') :
    ∃ f, fs.file? src = some f ∧ fs' = fs.setFile dst ⟨f.content, now⟩ := by
  rw [fsCopy] at h
  cases hx : fs.file? src with
  | none => rw [hx] at h; cases h
  | some f =>
    rw [hx] at h
    simp only at h
    split at h
    · cases h
    · exact ⟨f, rfl, (Option.some.inj h).symm⟩

theorem fsRemoveFile_inv {E : Env} {fs fs' : FS} {p : FPath}
    (h : fsRemoveFile E fs p = some fs') : fs' = fs.removeFile p := by
  rw [fsRemoveFile] at h
  split at h
  · cases h
  · exact (Option.some.inj h).symm

theorem ne_concat_of_getLast_ne {q d : FPath} {n : String}
    (h : q.getLast? ≠ some n) : q ≠ d ++ [n] := by
  intro he
  apply h
  rw [he, List.getLast?_concat]

/-! Frame lemmas: which files各 operation can touch. -/

theorem file?_eq_of_files {fs fs' : FS} (h : fs'.files = fs.files) (q : FPath) :
    fs'.file? q = fs.file? q := by
  rw [FS.file?, FS.file?, h]

theorem file?_save_config_frame (E : Env) (fs : FS) (now : Nat) (c : AppConfig)
    (q : FPath) (h1 : q ≠ config_file_path E) (h2 : q ≠ tmpConfigPath E) :
    ((save_config E fs now c).1).file? q = fs.file? q := by
  simp only [save_config]
  cases hx : fsCreateDirAll E fs (config_file_path E).dropLast with
  | none => rfl
  | some fs1 =>
    dsimp only
    have hf1 := file?_eq_of_files (fsCreateDirAll_files hx) q
    cases hw : fsWrite E fs1 (E.configDir ++ ["app_config.json.tmp"]) (.config c) now with
    | none => exact hf1
    | some fs2 =>
      dsimp only
      have hf2 : fs2.file? q = fs1.file? q := by
        rw [fsWrite_inv hw, file?_setFile, if_neg]
        exact h2
      cases hr : fsRename E fs2 (E.configDir ++ ["app_config.json.tmp"])
          (config_file_path E) with
      | none => exact hf2.trans hf1
      | some fs3 =>
        dsimp only
        obtain ⟨f, _, hfs3⟩ := fsRename_inv hr
        have hf3 : fs3.file? q = fs2.file? q := by
          rw [hfs3, file?_setFile, if_neg h1, file?_removeFile, if_neg]
          exact h2
        exact (hf3.trans hf2).trans hf1

theorem file?_load_config_frame (E : Env) (fs : FS) (now : Nat) (q : FPath)
    (h1 : q ≠ config_file_path E) (h2 : q ≠ tmpConfigPath E) :
    ((load_config E fs now).1).file? q = fs.file? q := by
  rw [load_config]
  split
  · cases hfr : fsRead E fs (config_file_path E) with
    | notFound => rfl
    | ioError => rfl
    | ok d =>
      cases d with
      | text s => rfl
      | config c => rfl
  · dsimp only
    have := file?_save_config_frame E fs now
      ⟨default_data_dir E, DEFAULT_BACKUP_COUNT⟩ q h1 h2
    cases hs : save_config E fs now ⟨default_data_dir E, DEFAULT_BACKUP_COUNT⟩ with
    | mk fs1 r =>
      rw [hs] at this
      cases r with
      | ok u => exact this
      | error e => exact this

theorem file?_data_file_path_frame (E : Env) (fs : FS) (now : Nat) (q : FPath)
    (h1 : q ≠ config_file_path E) (h2 : q ≠ tmpConfigPath E) :
    ((data_file_path E fs now).1).file? q = fs.file? q := by
  rw [data_file_path]
  have := file?_load_config_frame E fs now q h1 h2
  cases hlc : load_config E fs now with
  | mk fs1 r =>
    rw [hlc] at this
    cases r with
    | ok c => exact this
    | error e => exact this

theorem file?_backup_dir_path_frame (E : Env) (fs : FS) (now : Nat) (q : FPath)
    (h1 : q ≠ config_file_path E) (h2 : q ≠ tmpConfigPath E) :
    ((backup_dir_path E fs now).1).file? q = fs.file? q := by
  rw [backup_dir_path]
  have := file?_load_config_frame E fs now q h1 h2
  cases hlc : load_config E fs now with
  | mk fs1 r =>
    rw [hlc] at this
    cases r with
    | ok c => exact this
    | error e => exact this

theorem foldl_remove_frame (E : Env) (d : FPath) (q : FPath) :
    ∀ (es : List (String × Nat)) (fs : FS), (∀ e ∈ es, q ≠ d ++ [e.1]) →
    ((es.foldl (fun acc e => match fsRemoveFile E acc (d ++ [e.1]) with
      | none => acc | some acc' => acc') fs)).file? q = fs.file? q := by
  intro es
  induction es with
  | nil => intro fs _; rfl
  | cons e es ih =>
    intro fs h
    rw [List.foldl_cons]
    cases hx : fsRemoveFile E fs (d ++ [e.1]) with
    | none => exact ih fs (fun x hx => h x (List.mem_cons_of_mem e hx))
    | some fs1 =>
      have hstep : fs1.file? q = fs.file? q := by
        rw [fsRemoveFile_inv hx, file?_removeFile, if_neg]
        exact h e (List.mem_cons_self e es)
      rw [ih fs1 (fun x hx => h x (List.mem_cons_of_mem e hx)), hstep]

theorem foldl_remove_dirs (E : Env) (d : FPath) :
    ∀ (es : List (String × Nat)) (fs : FS),
    ((es.foldl (fun acc e => match fsRemoveFile E acc (d ++ [e.1]) with
      | none => acc | some acc' => acc') fs)).dirs = fs.dirs := by
  intro es
  induction es with
  | nil => intro fs; rfl
  | cons e es ih =>
    intro fs
    rw [List.foldl_cons]
    cases hx : fsRemoveFile E fs (d ++ [e.1]) with
    | none => exact ih fs
    | some fs1 =>
      rw [ih fs1, fsRemoveFile_inv hx]
      rfl

theorem file?_cleanup_frame (E : Env) (fs : FS) (d : FPath) (k : Nat) (q : FPath)
    (h3 : ∀ n, matchesPattern n = true → q ≠ d ++ [n]) :
    ((cleanup_old_backups E fs d k).1).file? q = fs.file? q := by
  rw [cleanup_old_backups]
  cases hrd : fsReadDir E fs d with
  | none => rfl
  | some entries =>
    dsimp only
    split
    · rfl
    · dsimp only
      refine foldl_remove_frame E d q _ fs ?_
      intro e he
      have he2 : e ∈ entries.filter (fun e => matchesPattern e.1) :=
        (sortByMtimeDesc_perm _).subset ((List.drop_sublist _ _).subset he)
      exact h3 e.1 (List.mem_filter.mp he2).2

theorem cleanup_dirs (E : Env) (fs : FS) (d : FPath) (k : Nat) :
    ((cleanup_old_backups E fs d k).1).dirs = fs.dirs := by
  rw [cleanup_old_backups]
  cases hrd : fsReadDir E fs d with
  | none => rfl
  | some entries =>
    dsimp only
    split
    · rfl
    · dsimp only
      exact foldl_remove_dirs E d _ fs

theorem file?_create_backup_frame (E : Env) (fs : FS) (now : Nat) (c : String)
    (q : FPath)
    (h1 : q.getLast? ≠ some CONFIG_FILE)
    (h2 : q.getLast? ≠ some "app_config.json.tmp")
    (h3 : ∀ n, matchesPattern n = true → q.getLast? ≠ some n) :
    ((create_backup_if_changed E fs now c).1).file? q = fs.file? q := by
  have h1' : q ≠ config_file_path E := by
    rw [config_file_path]
    exact ne_concat_of_getLast_ne h1
  have h2' : q ≠ tmpConfigPath E := by
    rw [tmpConfigPath]
    exact ne_concat_of_getLast_ne h2
  rw [create_backup_if_changed]
  have hfr1 := file?_data_file_path_frame E fs now q h1' h2'
  cases hdfp : data_file_path E fs now with
  | mk fs1 r =>
    rw [hdfp] at hfr1
    cases r with
    | error e => dsimp only; exact hfr1
    | ok dp =>
      dsimp only
      split
      · exact hfr1
      · split
        · exact hfr1
        · have hfr2 := file?_backup_dir_path_frame E fs1 now q h1' h2'
          cases hbdp : backup_dir_path E fs1 now with
          | mk fs2 r2 =>
            rw [hbdp] at hfr2
            cases r2 with
            | error e => dsimp only; exact hfr2.trans hfr1
            | ok bdir =>
              dsimp only
              cases hmk : fsCreateDirAll E fs2 bdir with
              | none => dsimp only; exact hfr2.trans hfr1
              | some fs3 =>
                dsimp only
                have hfr3 := file?_eq_of_files (fsCreateDirAll_files hmk) q
                cases hcp : fsCopy E fs3 dp (bdir ++ [generate_backup_filename now])
                    now with
                | none => dsimp only; exact (hfr3.trans hfr2).trans hfr1
                | some fs4 =>
                  dsimp only
                  obtain ⟨f, _, hfs4⟩ := fsCopy_inv hcp
                  have hfr4 : fs4.file? q = fs3.file? q := by
                    rw [hfs4, file?_setFile, if_neg]
                    exact ne_concat_of_getLast_ne
                      (h3 _ (matchesPattern_gen now))
                  have hfr5 := file?_load_config_frame E fs4 now q h1' h2'
                  cases hlc2 : load_config E fs4 now with
                  | mk fs5 r5 =>
                    rw [hlc2] at hfr5
                    cases r5 with
                    | error e =>
                      dsimp only
                      exact (((hfr5.trans hfr4).trans hfr3).trans hfr2).trans hfr1
                    | ok cfg2 =>
                      dsimp only
                      have hfr6 : ((cleanup_old_backups E fs5 bdir
                          cfg2.backup_count).1).file? q = fs5.file? q :=
                        file?_cleanup_frame E fs5 bdir cfg2.backup_count q
                          (fun n hn => ne_concat_of_getLast_ne (h3 n hn))
                      exact ((((hfr6.trans hfr5).trans hfr4).trans hfr3).trans hfr2).trans
                        hfr1

theorem file?_is_dir_writable_frame (E : Env) (fs : FS) (now : Nat) (p : FPath)
    (q : FPath) (hq : q.getLast? ≠ some ".write_test") :
    ((is_dir_writable E fs now p).1).file? q = fs.file? q := by
  have hne : q ≠ p ++ [".write_test"] := ne_concat_of_getLast_ne hq
  simp only [is_dir_writable]
  split
  · cases hmk : fsCreateDirAll E fs p with
    | none => rfl
    | some fs1 =>
      dsimp only
      have hfr1 := file?_eq_of_files (fsCreateDirAll_files hmk) q
      cases hw : fsWrite E fs1 (p ++ [".write_test"]) (.text "test") now with
      | none => dsimp only; exact hfr1
      | some fs2 =>
        dsimp only
        have hfr2 : fs2.file? q = fs1.file? q := by
          rw [fsWrite_inv hw, file?_setFile, if_neg hne]
        cases hrm : fsRemoveFile E fs2 (p ++ [".write_test"]) with
        | none => dsimp only; exact hfr2.trans hfr1
        | some fs3 =>
          dsimp only
          have hfr3 : fs3.file? q = fs2.file? q := by
            rw [fsRemoveFile_inv hrm, file?_removeFile, if_neg hne]
          exact (hfr3.trans hfr2).trans hfr1
  · cases hw : fsWrite E fs (p ++ [".write_test"]) (.text "test") now with
    | none => rfl
    | some fs2 =>
      dsimp only
      have hfr2 : fs2.file? q = fs.file? q := by
        rw [fsWrite_inv hw, file?_setFile, if_neg hne]
      cases hrm : fsRemoveFile E fs2 (p ++ [".write_test"]) with
      | none => dsimp only; exact hfr2
      | some fs3 =>
        dsimp only
        have hfr3 : fs3.file? q = fs2.file? q := by
          rw [fsRemoveFile_inv hrm, file?_removeFile, if_neg hne]
        exact hfr3.trans hfr2

/-- C3 (amended): rather than any pruning failure being swallowed, only
deletion failures are: once the backup copy succeeds and the backup
directory can be listed, save_state succeeds no matter which deletions
fail. -/
theorem c3_deletion_failures_swallowed (E : Env) (fs : FS) (cfg : AppConfig) (now : Nat)
    (c c0 : String) (t0 : Nat)
    (hb : goodBase E fs cfg)
    (hd : fs.file? (dataPath cfg) = some ⟨.text c0, t0⟩)
    (hne : c0 ≠ c)
    (hrd : E.failRead (dataPath cfg) = false)
    (hcp : E.failCopy (bdirPath cfg ++ [generate_backup_filename now]) = false)
    (hrdd : E.failReadDir (bdirPath cfg) = false)
    (hw : E.failWrite (tmpDataPath cfg) = false)
    (hrn : E.failRename (dataPath cfg) = false) :
    (save_state E fs now c).2 = .ok () := by
  obtain ⟨hc1, hc2, hc3, hc4, hc5, hc6, hc7, hc8, hc9⟩ := hb
  have hlc := load_config_of_base (E := E) now hc1 hc2 hc3
  have hpe : fs.pathExists (dataPath cfg) = true := pathExists_of_file hd
  have hread' := fsRead_some hd hrd
  have hbp_nd : bdirPath cfg ++ [generate_backup_filename now] ∉ fs.dirs := by
    intro hmem
    exact hc8 _ hmem (by rw [List.dropLast_concat])
  have hcopy := @fsCopy_some E fs (dataPath cfg)
    (bdirPath cfg ++ [generate_backup_filename now]) ⟨.text c0, t0⟩ now hd hcp
    (by rw [List.dropLast_concat]; exact hc5) hbp_nd
  have hcfg4 : (fs.setFile (bdirPath cfg ++ [generate_backup_filename now])
      ⟨.text c0, now⟩).file? (config_file_path E) = fs.file? (config_file_path E) := by
    rw [file?_setFile, if_neg (configPath_ne_bpath E cfg now)]
  have hlc4 : load_config E (fs.setFile (bdirPath cfg ++ [generate_backup_filename now])
      ⟨.text c0, now⟩) now
      = (fs.setFile (bdirPath cfg ++ [generate_backup_filename now])
          ⟨.text c0, now⟩, .ok cfg) :=
    load_config_of_base now (by rw [hcfg4]; exact hc1) hc2 hc3
  have hneq : ¬(FileData.text c0 = FileData.text c) := by
    intro hx
    exact hne (FileData.text.inj hx)
  have hprog : create_backup_if_changed E fs now c
      = cleanup_old_backups E
          (fs.setFile (bdirPath cfg ++ [generate_backup_filename now]) ⟨.text c0, now⟩)
          (bdirPath cfg) cfg.backup_count := by
    rw [dataPath] at hpe hread'
    rw [dataPath, bdirPath] at hcopy
    rw [bdirPath] at hlc4
    simp only [create_backup_if_changed, data_file_path, backup_dir_path, hlc, hpe,
      Bool.not_true, Bool.false_eq_true, if_false, hread', if_neg hneq,
      fsCreateDirAll_of_dir (show cfg.data_dir ++ [BACKUP_DIR] ∈ fs.dirs from hc5),
      hcopy, hlc4, bdirPath]
  have hclean_snd := cleanup_ok_of_listing E
    (fs.setFile (bdirPath cfg ++ [generate_backup_filename now]) ⟨.text c0, now⟩)
    (bdirPath cfg) cfg.backup_count hrdd hc5
  have hclean : cleanup_old_backups E
      (fs.setFile (bdirPath cfg ++ [generate_backup_filename now]) ⟨.text c0, now⟩)
      (bdirPath cfg) cfg.backup_count
      = ((cleanup_old_backups E
          (fs.setFile (bdirPath cfg ++ [generate_backup_filename now]) ⟨.text c0, now⟩)
          (bdirPath cfg) cfg.backup_count).1, .ok ()) := by
    cases hcl : cleanup_old_backups E
        (fs.setFile (bdirPath cfg ++ [generate_backup_filename now]) ⟨.text c0, now⟩)
        (bdirPath cfg) cfg.backup_count with
    | mk a b =>
      rw [hcl] at hclean_snd
      rw [show b = Except.ok () from hclean_snd]
  have hdirs5 : ((cleanup_old_backups E
      (fs.setFile (bdirPath cfg ++ [generate_backup_filename now]) ⟨.text c0, now⟩)
      (bdirPath cfg) cfg.backup_count).1).dirs = fs.dirs := by
    rw [cleanup_dirs, dirs_setFile]
  have hw5 := @fsWrite_some E
    ((cleanup_old_backups E
      (fs.setFile (bdirPath cfg ++ [generate_backup_filename now]) ⟨.text c0, now⟩)
      (bdirPath cfg) cfg.backup_count).1)
    (tmpDataPath cfg) (FileData.text c) now hw
    (by rw [tmpDataPath, List.dropLast_concat, hdirs5]; exact hc4)
    (by rw [hdirs5]; exact hc7)
  have hr5 := @fsRename_some E
    (((cleanup_old_backups E
      (fs.setFile (bdirPath cfg ++ [generate_backup_filename now]) ⟨.text c0, now⟩)
      (bdirPath cfg) cfg.backup_count).1).setFile (tmpDataPath cfg) ⟨.text c, now⟩)
    (tmpDataPath cfg) (dataPath cfg)
    ⟨.text c, now⟩ (by simp) hrn
  have hseq : save_state E fs now c
      = ((((cleanup_old_backups E
          (fs.setFile (bdirPath cfg ++ [generate_backup_filename now]) ⟨.text c0, now⟩)
          (bdirPath cfg) cfg.backup_count).1).removeFile
            (tmpDataPath cfg)).setFile (dataPath cfg) ⟨.text c, now⟩, .ok ()) := by
    rw [tmpDataPath] at hw5 hr5
    rw [dataPath] at hr5
    rw [removeFile_setFile_self] at hr5
    simp only [save_state, data_file_path, hlc, List.dropLast_concat,
      fsCreateDirAll_of_dir hc4, hprog.trans hclean, hw5, hr5, dataPath, tmpDataPath]
  rw [hseq]

/-! Remaining helper lemmas for the claim theorems. -/

theorem fsCreateDirAll_inv {E : Env} {fs fs' : FS} {p : FPath}
    (h : fsCreateDirAll E fs p = some fs') : fs' = fs ∨ fs' = fs.addDir p := by
  rw [fsCreateDirAll] at h
  split at h
  · exact Or.inl (Option.some.inj h).symm
  · split at h
    · cases h
    · exact Or.inr (Option.some.inj h).symm

theorem patternEntries_files_eq {fs fs' : FS} (h : fs'.files = fs.files) (d : FPath) :
    patternEntries fs' d = patternEntries fs d := by
  rw [patternEntries, patternEntries, FS.entriesIn, FS.entriesIn, h]

theorem data_file_path_inv {E : Env} {fs fs1 : FS} {now : Nat} {dp : FPath}
    (h : data_file_path E fs now = (fs1, .ok dp)) :
    ∃ cfg, load_config E fs now = (fs1, .ok cfg) ∧ dp = cfg.data_dir ++ [DATA_FILE] := by
  rw [data_file_path] at h
  cases hx : load_config E fs now with
  | mk fsa r =>
    rw [hx] at h
    cases r with
    | ok cfg =>
      simp only at h
      have h1 : fsa = fs1 := congrArg Prod.fst h
      have h2 : dp = cfg.data_dir ++ [DATA_FILE] :=
        (Except.ok.inj (congrArg Prod.snd h)).symm
      exact ⟨cfg, by rw [h1], h2⟩
    | error e =>
      simp only at h
      have h2 := congrArg Prod.snd h
      simp only at h2
      cases h2

theorem save_config_ok_inv {E : Env} {fs fs' : FS} {now : Nat} {c : AppConfig}
    (h : save_config E fs now c = (fs', .ok ())) :
    fs'.file? (config_file_path E) = some ⟨.config c, now⟩ ∧
    ∀ q, q ≠ config_file_path E → q ≠ tmpConfigPath E → fs'.file? q = fs.file? q := by
  simp only [save_config] at h
  cases hx : fsCreateDirAll E fs (config_file_path E).dropLast with
  | none =>
    rw [hx] at h
    exact absurd (congrArg Prod.snd h) (by simp)
  | some fs1 =>
    simp only [hx] at h
    cases hw : fsWrite E fs1 (E.configDir ++ ["app_config.json.tmp"])
        (.config c) now with
    | none =>
      simp only [hw] at h
      exact absurd (congrArg Prod.snd h) (by simp)
    | some fs2 =>
      simp only [hw] at h
      cases hr : fsRename E fs2 (E.configDir ++ ["app_config.json.tmp"])
          (config_file_path E) with
      | none =>
        simp only [hr] at h
        exact absurd (congrArg Prod.snd h) (by simp)
      | some fs3 =>
        simp only [hr] at h
        have hfs' : fs3 = fs' := congrArg Prod.fst h
        obtain ⟨f, hff, hfs3⟩ := fsRename_inv hr
        have hf2 : f = ⟨.config c, now⟩ := by
          rw [fsWrite_inv hw, file?_setFile, if_pos rfl] at hff
          exact (Option.some.inj hff).symm
        subst hfs'
        constructor
        · rw [hfs3, file?_setFile, if_pos rfl, hf2]
        · intro q hq1 hq2
          rw [tmpConfigPath] at hq2
          rw [hfs3, file?_setFile, if_neg hq1, file?_removeFile, if_neg hq2,
            fsWrite_inv hw, file?_setFile, if_neg hq2,
            file?_eq_of_files (fsCreateDirAll_files hx)]

/-! The claims. -/

/-- C8: switch_data_dir with the Cancel action succeeds immediately and
leaves the filesystem — including the persisted configuration — exactly
as it was. -/
theorem c8_cancel_is_noop (E : Env) (fs : FS) (now : Nat) (path : FPath) :
    switch_data_dir E fs now path SwitchDirAction.Cancel = (fs, .ok ()) := rfl

/-- C1 (counterexample): get_data_dir_info is not read-only.  On a state
whose configured data directory does not exist, it creates that
directory (via is_dir_writable), so the filesystem changes. -/
theorem c1_counterexample :
    (get_data_dir_info wEnv wFS1 5).1 ≠ wFS1 ∧
    ((get_data_dir_info wEnv wFS1 5).1).dirExists ["d"] = true ∧
    wFS1.dirExists ["d"] = false := by
  refine ⟨?_, by decide, by decide⟩
  intro h
  have := congrArg FS.dirs h
  revert this
  decide

/-- C1 (amended): get_data_dir_info never touches the content of any
file other than the config file, its temporary sibling, and the
transient `.write_test` probe file; in particular the data file and
every backup entry are untouched (directories may still be created). -/
theorem c1_info_touches_only_probe_files (E : Env) (fs : FS) (now : Nat) (q : FPath)
    (h1 : q.getLast? ≠ some CONFIG_FILE)
    (h2 : q.getLast? ≠ some "app_config.json.tmp")
    (h3 : q.getLast? ≠ some ".write_test") :
    ((get_data_dir_info E fs now).1).file? q = fs.file? q := by
  have h1' : q ≠ config_file_path E := by
    rw [config_file_path]
    exact ne_concat_of_getLast_ne h1
  have h2' : q ≠ tmpConfigPath E := by
    rw [tmpConfigPath]
    exact ne_concat_of_getLast_ne h2
  rw [get_data_dir_info]
  have hload := file?_load_config_frame E fs now q h1' h2'
  cases hlc : load_config E fs now with
  | mk fs1 r =>
    rw [hlc] at hload
    cases r with
    | error e => dsimp only; exact hload
    | ok cfg =>
      dsimp only
      have hwr := file?_is_dir_writable_frame E fs1 now cfg.data_dir q h3
      cases hw : is_dir_writable E fs1 now cfg.data_dir with
      | mk fs2 w =>
        rw [hw] at hwr
        dsimp only
        exact hwr.trans hload

/-- C1 (witness): the amended frame property at a concrete state and a
concrete unrelated path. -/
theorem c1_witness :
    ((get_data_dir_info wEnv wFS1 5).1).file? ["d", "cmd_notebook.json"]
      = wFS1.file? ["d", "cmd_notebook.json"] :=
  c1_info_touches_only_probe_files wEnv wFS1 5 ["d", "cmd_notebook.json"]
    (by decide) (by decide) (by decide)

/-- C2: if backup creation inside save_state fails (creating the backup
directory or copying the data file into it), save_state propagates that
error and the canonical data file is left unchanged — the new content
is never written. -/
theorem c2_backup_failure_aborts_save (E : Env) (fs fs1 fs2 fs3 : FS) (now : Nat)
    (c : String) (dp : FPath) (e : String)
    (h1 : data_file_path E fs now = (fs1, .ok dp))
    (h2 : fsCreateDirAll E fs1 dp.dropLast = some fs2)
    (h3 : create_backup_if_changed E fs2 now c = (fs3, .error e))
    (he : e = "无法创建备份目录" ∨ e = "创建备份失败") :
    save_state E fs now c = (fs3, .error e) ∧ fs3.file? dp = fs.file? dp := by
  constructor
  · simp only [save_state, h1, h2, h3]
  · obtain ⟨cfg, hlc, hdp⟩ := data_file_path_inv h1
    have hlast : dp.getLast? = some DATA_FILE := by
      rw [hdp, List.getLast?_concat]
    have hn1 : dp.getLast? ≠ some CONFIG_FILE := by
      rw [hlast]
      intro hx
      exact absurd (Option.some.inj hx) (by decide)
    have hn2 : dp.getLast? ≠ some "app_config.json.tmp" := by
      rw [hlast]
      intro hx
      exact absurd (Option.some.inj hx) (by decide)
    have hn3 : ∀ n, matchesPattern n = true → dp.getLast? ≠ some n := by
      intro n hn
      rw [hlast]
      intro hx
      exact ne_of_pattern hn pattern_DATA_FILE (Option.some.inj hx).symm
    have hstep3 : fs3.file? dp = fs2.file? dp := by
      have := file?_create_backup_frame E fs2 now c dp hn1 hn2 hn3
      rw [h3] at this
      exact this
    have hstep2 : fs2.file? dp = fs1.file? dp :=
      file?_eq_of_files (fsCreateDirAll_files h2) dp
    have hstep1 : fs1.file? dp = fs.file? dp := by
      have h1' : dp ≠ config_file_path E := by
        rw [config_file_path]
        exact ne_concat_of_getLast_ne hn1
      have h2' : dp ≠ tmpConfigPath E := by
        rw [tmpConfigPath]
        exact ne_concat_of_getLast_ne hn2
      have := file?_data_file_path_frame E fs now dp h1' h2'
      rw [h1] at this
      exact this
    exact (hstep3.trans hstep2).trans hstep1

/-- C2 (witness): with a state whose backup directory cannot be created,
save_state fails with the backup error and the data file still holds
the old content. -/
theorem c2_witness :
    save_state wEnvC2 wFSC2 1 "new" = (wFSC2, .error "无法创建备份目录") ∧
    wFSC2.file? ["d", "cmd_notebook.json"] = wFSC2.file? ["d", "cmd_notebook.json"] :=
  c2_backup_failure_aborts_save wEnvC2 wFSC2 wFSC2 wFSC2 wFSC2 1 "new"
    ["d", "cmd_notebook.json"] "无法创建备份目录"
    (by decide) (by decide) (by decide) (Or.inl rfl)

/-- C3 (counterexample): a pruning failure is not always swallowed.  On
a state where the backup copy succeeds but listing the backup directory
fails, save_state fails instead of succeeding. -/
theorem c3_counterexample :
    (save_state wEnvC3 wFSD 1 "new").2 = .error "读取备份目录失败" := by
  decide

/-- C3 (witness): with every deletion failing and a prune due, the save
still succeeds. -/
theorem c3_witness : (save_state wEnvRm wFSC3b 3 "new").2 = .ok () :=
  c3_deletion_failures_swallowed wEnvRm wFSC3b wCfg 3 "new" "old" 0
    (by decide) (by decide) (by decide) (by decide) (by decide) (by decide)
    (by decide) (by decide)

/-- C4: starting from a well-formed state with no data file and no
backup entries, a sequence of save_state calls with pairwise distinct
contents (at strictly increasing wall-clock seconds, on a fault-free
oracle) all succeed, and afterwards the backup directory holds exactly
min(n-1, backup_count) entries. -/
theorem c4_backup_retention_count (E : Env) (fs : FS) (cfg : AppConfig)
    (l : List (String × Nat))
    (hben : benignFS E)
    (hb : goodBase E fs cfg)
    (hd : goodData fs cfg none)
    (hbk : goodBackups fs cfg [])
    (htimes : List.Pairwise (fun a b : String × Nat => a.2 < b.2) l)
    (hconts : List.Pairwise (fun a b : String × Nat => a.1 ≠ b.1) l) :
    ∃ fs', runSaves E fs l = (fs', .ok ()) ∧
      (patternEntries fs' (bdirPath cfg)).length
        = min (l.length - 1) cfg.backup_count := by
  cases l with
  | nil =>
    refine ⟨fs, rfl, ?_⟩
    rw [hbk.1.length_eq]
    simp
  | cons e rest =>
    obtain ⟨hb1, hb2, hb3, hb4, hb5, hb6, hb7⟩ := hben
    obtain ⟨fs1, bts1, hsave, hgb1, hgd1, hgbk1, hbnd1, hlen1⟩ :=
      save_state_step E fs cfg e.2 e.1 none [] hb hd hbk
        (hb5 _) (hb2 _) (hb3 _) (hb4 _) (hb6 _)
        (fun t ht => absurd ht (List.not_mem_nil t))
        (fun t ht => absurd ht (List.not_mem_nil t)) (hb7 _)
    have hlen1' : bts1.length = 0 := hlen1
    have hbts1 : bts1 = [] := List.length_eq_zero.mp hlen1'
    rw [hbts1] at hgbk1
    have hrelt := List.pairwise_cons.mp htimes
    have hrelc := List.pairwise_cons.mp hconts
    obtain ⟨fs2, bts2, hrun, hgb2, hgbk2, hlen2⟩ :=
      runSaves_inv E cfg ⟨hb1, hb2, hb3, hb4, hb5, hb6, hb7⟩ rest fs1 e.1 e.2 []
        hgb1 hgd1 hgbk1 (Nat.zero_le _)
        (fun t ht => absurd ht (List.not_mem_nil t))
        hrelt.2 (fun x hx => hrelc.1 x hx) hrelc.2
    refine ⟨fs2, ?_, ?_⟩
    · rw [runSaves]
      rw [hsave]
      exact hrun
    · rw [hgbk2.1.length_eq, List.length_map, hlen2, List.length_cons]
      simp only [List.length_nil]
      omega

/-- C4 (witness): four distinct saves with retention 2 end with
min(4-1, 2) = 2 backup entries. -/
theorem c4_witness :
    ∃ fs', runSaves wEnv wFS [("A", 1), ("B", 2), ("C", 3), ("D", 4)]
        = (fs', .ok ()) ∧
      (patternEntries fs' (bdirPath wCfg)).length
        = min ([("A", 1), ("B", 2), ("C", 3), ("D", 4)].length - 1)
            wCfg.backup_count :=
  c4_backup_retention_count wEnv wFS wCfg _
    ⟨fun _ => rfl, fun _ => rfl, fun _ => rfl, fun _ => rfl, fun _ => rfl,
     fun _ => rfl, fun _ => rfl⟩
    (by decide) (by decide) (by decide) (by decide) (by decide)

/-- C5: save_state with content byte-identical to the on-disk data
file — and likewise the very first save, when no data file exists —
creates no backup entry in any directory, whatever the outcome of the
write itself. -/
theorem c5_no_new_backup_when_unchanged (E : Env) (fs : FS) (cfg : AppConfig)
    (now : Nat) (c : String)
    (h1 : (fs.file? (config_file_path E)).map FNode.content = some (.config cfg))
    (h2 : cfg.data_dir ≠ [])
    (h3 : E.failRead (config_file_path E) = false)
    (hnd : dataPath cfg ∉ fs.dirs)
    (hskip : fs.file? (dataPath cfg) = none ∨
      (∃ t, fs.file? (dataPath cfg) = some ⟨.text c, t⟩ ∧
        E.failRead (dataPath cfg) = false))
    (d : FPath) :
    patternEntries ((save_state E fs now c).1) d = patternEntries fs d := by
  have hlc := load_config_of_base (E := E) now h1 h2 h3
  simp only [save_state, data_file_path, hlc, List.dropLast_concat]
  cases hmk : fsCreateDirAll E fs cfg.data_dir with
  | none => dsimp only
  | some fs2 =>
    dsimp only
    have hfeq : fs2.files = fs.files := fsCreateDirAll_files hmk
    have h1' : (fs2.file? (config_file_path E)).map FNode.content
        = some (.config cfg) := by
      rw [file?_eq_of_files hfeq]
      exact h1
    have hnd2 : dataPath cfg ∉ fs2.dirs := by
      rcases fsCreateDirAll_inv hmk with h | h
      · rw [h]; exact hnd
      · rw [h]
        intro hx
        rcases List.mem_cons.mp hx with hx | hx
        · exact absurd hx (by rw [dataPath]; exact concat_ne_base _ _ _ rfl)
        · exact hnd hx
    have hskip2 : fs2.file? (dataPath cfg) = none ∨
        (∃ t, fs2.file? (dataPath cfg) = some ⟨.text c, t⟩ ∧
          E.failRead (dataPath cfg) = false) := by
      rcases hskip with h | ⟨t, ht, hr⟩
      · exact Or.inl (by rw [file?_eq_of_files hfeq]; exact h)
      · exact Or.inr ⟨t, by rw [file?_eq_of_files hfeq]; exact ht, hr⟩
    have hnoop2 := create_backup_noop E fs2 cfg now c h1' h2 h3 hnd2 hskip2
    rw [hnoop2]
    dsimp only
    cases hw : fsWrite E fs2 (cfg.data_dir ++ ["cmd_notebook.json.tmp"])
        (.text c) now with
    | none => dsimp only; exact patternEntries_files_eq hfeq d
    | some fs4 =>
      dsimp only
      have hpe4 : patternEntries fs4 d = patternEntries fs d := by
        rw [fsWrite_inv hw, patternEntries_setFile_nomatch _ _ _ _ pattern_tmpData]
        exact patternEntries_files_eq hfeq d
      cases hr : fsRename E fs4 (cfg.data_dir ++ ["cmd_notebook.json.tmp"])
          (cfg.data_dir ++ [DATA_FILE]) with
      | none => dsimp only; exact hpe4
      | some fs5 =>
        dsimp only
        obtain ⟨f, _, hfs5⟩ := fsRename_inv hr
        rw [hfs5, patternEntries_setFile_nomatch _ _ _ _ pattern_DATA_FILE,
          patternEntries_removeFile_nomatch _ _ _ pattern_tmpData]
        exact hpe4

/-- C5 (witness): re-saving the exact on-disk content leaves the backup
directory entries unchanged. -/
theorem c5_witness :
    patternEntries ((save_state wEnv wFSD 5 "old").1) ["d", ".backup"]
      = patternEntries wFSD ["d", ".backup"] :=
  c5_no_new_backup_when_unchanged wEnv wFSD wCfg 5 "old" (by decide) (by decide)
    rfl (by decide) (Or.inr ⟨0, by decide, rfl⟩) ["d", ".backup"]

/-- C7: load_state run after a successful save_state(c) returns exactly
c, and load_state on a state with no data file returns the absent
result (Ok none) rather than an error. -/
theorem c7_load_after_save_roundtrip (E : Env) (fs : FS) (cfg : AppConfig)
    (now now' : Nat) (c : String) (dataF : Option (String × Nat)) (bts : List Nat)
    (hb : goodBase E fs cfg)
    (hd : goodData fs cfg dataF)
    (hbk : goodBackups fs cfg bts)
    (hrd : E.failRead (dataPath cfg) = false)
    (hw : E.failWrite (tmpDataPath cfg) = false)
    (hrn : E.failRename (dataPath cfg) = false)
    (hcp : E.failCopy (bdirPath cfg ++ [generate_backup_filename now]) = false)
    (hrdd : E.failReadDir (bdirPath cfg) = false)
    (hlt : ∀ t ∈ bts, t < now)
    (hrem : ∀ t ∈ bts,
      E.failRemove (bdirPath cfg ++ [generate_backup_filename t]) = false)
    (hremn : E.failRemove (bdirPath cfg ++ [generate_backup_filename now]) = false) :
    (∃ fs', save_state E fs now c = (fs', .ok ()) ∧
      load_state E fs' now' = (fs', .ok (some (.text c)))) ∧
    (dataF = none → load_state E fs now' = (fs, .ok none)) := by
  constructor
  · obtain ⟨fs', bts', hsave, hgb', hgd', _, _, _⟩ :=
      save_state_step E fs cfg now c dataF bts hb hd hbk hrd hw hrn hcp hrdd
        hlt hrem hremn
    refine ⟨fs', hsave, ?_⟩
    obtain ⟨g1, g2, g3, g4, _, _, _, _, _⟩ := hgb'
    have hlc := load_config_of_base (E := E) now' g1 g2 g3
    have hdp : fs'.file? (dataPath cfg) = some ⟨.text c, now⟩ := hgd'
    have hrd' := hrd
    rw [dataPath] at hdp hrd'
    have hread := fsRead_some hdp hrd'
    simp only [load_state, data_file_path, hlc, List.dropLast_concat,
      fsCreateDirAll_of_dir g4, hread]
  · intro hnone
    rw [hnone] at hd
    simp only [goodData] at hd
    obtain ⟨g1, g2, g3, g4, _, g6, _, _, _⟩ := hb
    have hlc := load_config_of_base (E := E) now' g1 g2 g3
    have hnf : fsRead E fs (cfg.data_dir ++ [DATA_FILE]) = .notFound := by
      apply fsRead_notFound
      · rw [← dataPath]
        exact hd
      · rw [← dataPath]
        simp only [FS.dirExists]
        simp [g6]
    simp only [load_state, data_file_path, hlc, List.dropLast_concat,
      fsCreateDirAll_of_dir g4, hnf]

/-- C7 (witness): a concrete save-then-load returns the saved content,
and loading with no data file present returns Ok none. -/
theorem c7_witness :
    (∃ fs', save_state wEnv wFS 1 "hello" = (fs', .ok ()) ∧
      load_state wEnv fs' 2 = (fs', .ok (some (.text "hello")))) ∧
    ((none : Option (String × Nat)) = none →
      load_state wEnv wFS 2 = (wFS, .ok none)) :=
  c7_load_after_save_roundtrip wEnv wFS wCfg 1 2 "hello" none []
    (by decide) (by decide) (by decide) rfl rfl rfl rfl rfl
    (fun t ht => absurd ht (List.not_mem_nil t))
    (fun t ht => absurd ht (List.not_mem_nil t)) rfl

/-- C6: with the backup directory listable and no duplicate names,
pruning deletes nothing when the number of entries matching the backup
naming pattern is at most the retention; when it exceeds the retention
(and the due deletions succeed), the surviving matching entries are
exactly the retention newest ones by modification time — every kept
entry is at least as recent as every deleted one. -/
theorem c6_prune_keeps_newest (E : Env) (fs : FS) (bdir : FPath) (keep : Nat)
    (hrd : E.failReadDir bdir = false) (hdir : bdir ∈ fs.dirs)
    (hnod : ((patternEntries fs bdir).map Prod.fst).Nodup) :
    ((patternEntries fs bdir).length ≤ keep →
      cleanup_old_backups E fs bdir keep = (fs, .ok ())) ∧
    (keep < (patternEntries fs bdir).length →
      (∀ e ∈ (sortByMtimeDesc (patternEntries fs bdir)).drop keep,
        E.failRemove (bdir ++ [e.1]) = false) →
      ∃ fs', cleanup_old_backups E fs bdir keep = (fs', .ok ()) ∧
        (patternEntries fs' bdir).Perm
          ((sortByMtimeDesc (patternEntries fs bdir)).take keep) ∧
        (patternEntries fs' bdir).length = keep ∧
        ∀ x ∈ (sortByMtimeDesc (patternEntries fs bdir)).take keep,
        ∀ y ∈ (sortByMtimeDesc (patternEntries fs bdir)).drop keep, y.2 ≤ x.2) := by
  constructor
  · exact fun hle => cleanup_le E fs bdir keep hrd hdir hle
  · intro hgt hrem
    have hclean := cleanup_gt E fs bdir keep hrd hdir hgt hrem
    have hpaths : ((sortByMtimeDesc (patternEntries fs bdir)).drop keep).map
        (fun e => bdir ++ [e.1])
        = (((sortByMtimeDesc (patternEntries fs bdir)).drop keep).map
            Prod.fst).map (fun n => bdir ++ [n]) := by
      rw [List.map_map]
      rfl
    have hsurv : (patternEntries (removePaths fs
        (((sortByMtimeDesc (patternEntries fs bdir)).drop keep).map
          (fun e => bdir ++ [e.1]))) bdir).Perm
        ((sortByMtimeDesc (patternEntries fs bdir)).take keep) := by
      rw [hpaths, patternEntries_removeNames]
      exact filter_out_drop (patternEntries fs bdir) keep hnod
    refine ⟨_, hclean, hsurv, ?_, ?_⟩
    · rw [hsurv.length_eq, List.length_take]
      have := (sortByMtimeDesc_perm (patternEntries fs bdir)).length_eq
      omega
    · have hsorted := sortByMtimeDesc_pairwise (patternEntries fs bdir)
      rw [← List.take_append_drop keep (sortByMtimeDesc (patternEntries fs bdir))]
        at hsorted
      have h2 := (List.pairwise_append.mp hsorted).2.2
      exact fun x hx y hy => h2 x hx y hy

/-- C6 (witness): pruning a directory of three backups down to one
keeps exactly the newest entry. -/
theorem c6_witness :
    ∃ fs', cleanup_old_backups wEnv wFSB ["b"] 1 = (fs', .ok ()) ∧
      (patternEntries fs' ["b"]).Perm
        ((sortByMtimeDesc (patternEntries wFSB ["b"])).take 1) ∧
      (patternEntries fs' ["b"]).length = 1 ∧
      ∀ x ∈ (sortByMtimeDesc (patternEntries wFSB ["b"])).take 1,
      ∀ y ∈ (sortByMtimeDesc (patternEntries wFSB ["b"])).drop 1, y.2 ≤ x.2 :=
  (c6_prune_keeps_newest wEnv wFSB ["b"] 1 rfl (by decide) (by decide)).2
    (by decide) (by decide)

/-- C9: when the current data file holds the text X, a successful
switch_data_dir(newDir, CopyToNew) leaves newDir/cmd_notebook.json
holding exactly X and the persisted configuration equal to the old one
with its data_dir replaced by newDir (retention unchanged). -/
theorem c9_copy_to_new_updates_config (E : Env) (fs fs' : FS) (cfg : AppConfig)
    (now : Nat) (newDir : FPath) (X : String) (tX : Nat)
    (h1 : (fs.file? (config_file_path E)).map FNode.content = some (.config cfg))
    (h2 : cfg.data_dir ≠ [])
    (h3 : E.failRead (config_file_path E) = false)
    (hdata : fs.file? (dataPath cfg) = some ⟨.text X, tX⟩)
    (hsw : switch_data_dir E fs now newDir .CopyToNew = (fs', .ok ())) :
    (fs'.file? (newDir ++ [DATA_FILE])).map FNode.content = some (.text X) ∧
    (fs'.file? (config_file_path E)).map FNode.content
      = some (.config { cfg with data_dir := newDir }) := by
  have hlc := load_config_of_base (E := E) now h1 h2 h3
  have hpe : fs.pathExists (cfg.data_dir ++ [DATA_FILE]) = true := by
    rw [← dataPath]
    exact pathExists_of_file hdata
  simp only [switch_data_dir, copy_data_to_new_dir, data_file_path, hlc, hpe,
    Bool.not_true, Bool.false_eq_true, if_false] at hsw
  cases hmk : fsCreateDirAll E fs newDir with
  | none =>
    simp only [hmk] at hsw
    exact absurd (congrArg Prod.snd hsw) (by simp)
  | some fsA =>
    simp only [hmk] at hsw
    cases hcp : fsCopy E fsA (cfg.data_dir ++ [DATA_FILE])
        (newDir ++ [DATA_FILE]) now with
    | none =>
      simp only [hcp] at hsw
      exact absurd (congrArg Prod.snd hsw) (by simp)
    | some fsB =>
      simp only [hcp] at hsw
      obtain ⟨f, hff, hfsB⟩ := fsCopy_inv hcp
      have hfX : f = ⟨.text X, tX⟩ := by
        have hdata' : fsA.file? (cfg.data_dir ++ [DATA_FILE])
            = some ⟨.text X, tX⟩ := by
          rw [file?_eq_of_files (fsCreateDirAll_files hmk)]
          rw [dataPath] at hdata
          exact hdata
        exact Option.some.inj (hff.symm.trans hdata')
      have hcfgB : (fsB.file? (config_file_path E)).map FNode.content
          = some (.config cfg) := by
        rw [hfsB, file?_setFile,
          if_neg (by rw [config_file_path]
                     exact concat_ne_concat_of_name_ne (by decide)),
          file?_eq_of_files (fsCreateDirAll_files hmk)]
        exact h1
      have hlcB := load_config_of_base (E := E) now hcfgB h2 h3
      simp only [hlcB] at hsw
      obtain ⟨hcfg', hframe⟩ := save_config_ok_inv hsw
      constructor
      · rw [hframe (newDir ++ [DATA_FILE])
          (by rw [config_file_path]
              exact concat_ne_concat_of_name_ne (by decide))
          (by rw [tmpConfigPath]
              exact concat_ne_concat_of_name_ne (by decide)),
          hfsB, file?_setFile, if_pos rfl, hfX]
        rfl
      · rw [hcfg']
        rfl

/-- C9 (witness): switching a concrete state holding `old` to a fresh
directory copies the content there and repoints the configuration. -/
theorem c9_witness :
    ((switch_data_dir wEnv wFSD 5 ["nd"] .CopyToNew).1.file?
        (["nd"] ++ [DATA_FILE])).map FNode.content = some (.text "old") ∧
    ((switch_data_dir wEnv wFSD 5 ["nd"] .CopyToNew).1.file?
        (config_file_path wEnv)).map FNode.content
      = some (.config { wCfg with data_dir := ["nd"] }) :=
  c9_copy_to_new_updates_config wEnv wFSD
    (switch_data_dir wEnv wFSD 5 ["nd"] .CopyToNew).1 wCfg 5 ["nd"] "old" 0
    (by decide) (by decide) rfl (by decide) (by decide)

/-- C10: when the data file exists but reading it fails, the read error
is not surfaced by create_backup_if_changed: the previous content is
treated as the empty string, so saving empty content skips the backup
entirely, while saving any non-empty content proceeds and copies the
data file's actual bytes into a fresh timestamped backup. -/
theorem c10_read_failure_treated_as_empty (E : Env) (fs : FS) (cfg : AppConfig)
    (now : Nat) (c : String) (f : FNode)
    (h1 : (fs.file? (config_file_path E)).map FNode.content = some (.config cfg))
    (h2 : cfg.data_dir ≠ [])
    (h3 : E.failRead (config_file_path E) = false)
    (hf : fs.file? (dataPath cfg) = some f)
    (hrd : E.failRead (dataPath cfg) = true)
    (hb5 : bdirPath cfg ∈ fs.dirs)
    (hb8 : ∀ d ∈ fs.dirs, d.dropLast ≠ bdirPath cfg)
    (hcp : E.failCopy (bdirPath cfg ++ [generate_backup_filename now]) = false)
    (hrdd : E.failReadDir (bdirPath cfg) = false)
    (hkeep : 1 ≤ cfg.backup_count)
    (hempty : patternEntries fs (bdirPath cfg) = []) :
    create_backup_if_changed E fs now "" = (fs, .ok ()) ∧
    (c ≠ "" →
      ∃ fs', create_backup_if_changed E fs now c = (fs', .ok ()) ∧
        fs'.file? (bdirPath cfg ++ [generate_backup_filename now])
          = some ⟨f.content, now⟩) := by
  have hlc := load_config_of_base (E := E) now h1 h2 h3
  have hpe : fs.pathExists (dataPath cfg) = true := pathExists_of_file hf
  have hre : fsRead E fs (dataPath cfg) = .ioError := by
    simp [fsRead, hf, hrd]
  rw [dataPath] at hpe hre
  constructor
  · simp only [create_backup_if_changed, data_file_path, hlc, hpe,
      Bool.not_true, Bool.false_eq_true, if_false, hre, if_pos rfl]
    rw [if_pos trivial]
  · intro hc
    have hneq : ¬(FileData.text "" = FileData.text c) := by
      intro hx
      exact hc (FileData.text.inj hx).symm
    have hbne : fs.file? (bdirPath cfg ++ [generate_backup_filename now])
        = none := by
      cases hx : fs.file? (bdirPath cfg ++ [generate_backup_filename now]) with
      | none => rfl
      | some g =>
        exfalso
        have hmem1 : (generate_backup_filename now, g.mtime)
            ∈ fs.entriesIn (bdirPath cfg) :=
          mem_entriesL_intro (lookupF_some_mem hx)
        have hmem2 : (generate_backup_filename now, g.mtime)
            ∈ patternEntries fs (bdirPath cfg) := by
          rw [patternEntries, List.mem_filter]
          exact ⟨hmem1, matchesPattern_gen now⟩
        rw [hempty] at hmem2
        exact List.not_mem_nil _ hmem2
    have hbp_nd : bdirPath cfg ++ [generate_backup_filename now] ∉ fs.dirs := by
      intro hmem
      exact hb8 _ hmem (by rw [List.dropLast_concat])
    have hcopy := @fsCopy_some E fs (dataPath cfg)
      (bdirPath cfg ++ [generate_backup_filename now]) f now hf hcp
      (by rw [List.dropLast_concat]; exact hb5) hbp_nd
    have hcfg4 : (fs.setFile (bdirPath cfg ++ [generate_backup_filename now])
        ⟨f.content, now⟩).file? (config_file_path E)
        = fs.file? (config_file_path E) := by
      rw [file?_setFile, if_neg (configPath_ne_bpath E cfg now)]
    have hlc4 : load_config E (fs.setFile
        (bdirPath cfg ++ [generate_backup_filename now]) ⟨f.content, now⟩) now
        = (fs.setFile (bdirPath cfg ++ [generate_backup_filename now])
            ⟨f.content, now⟩, .ok cfg) :=
      load_config_of_base now (by rw [hcfg4]; exact h1) h2 h3
    have hprog : create_backup_if_changed E fs now c
        = cleanup_old_backups E
            (fs.setFile (bdirPath cfg ++ [generate_backup_filename now])
              ⟨f.content, now⟩) (bdirPath cfg) cfg.backup_count := by
      rw [dataPath, bdirPath] at hcopy
      rw [bdirPath] at hlc4
      simp only [create_backup_if_changed, data_file_path, backup_dir_path, hlc,
        hpe, Bool.not_true, Bool.false_eq_true, if_false, hre, if_neg hneq,
        fsCreateDirAll_of_dir (show cfg.data_dir ++ [BACKUP_DIR] ∈ fs.dirs
          from hb5),
        hcopy, hlc4, bdirPath]
    have hpe4 : patternEntries (fs.setFile
        (bdirPath cfg ++ [generate_backup_filename now]) ⟨f.content, now⟩)
        (bdirPath cfg)
        = (generate_backup_filename now, now) :: patternEntries fs (bdirPath cfg) :=
      patternEntries_setFile_fresh fs (bdirPath cfg) ⟨f.content, now⟩
        (matchesPattern_gen now) hbne
    have hlen : (patternEntries (fs.setFile
        (bdirPath cfg ++ [generate_backup_filename now]) ⟨f.content, now⟩)
        (bdirPath cfg)).length ≤ cfg.backup_count := by
      rw [hpe4, List.length_cons, hempty, List.length_nil]
      exact hkeep
    have hclean := cleanup_le E
      (fs.setFile (bdirPath cfg ++ [generate_backup_filename now])
        ⟨f.content, now⟩)
      (bdirPath cfg) cfg.backup_count hrdd
      (by rw [dirs_setFile]; exact hb5) hlen
    refine ⟨_, hprog.trans hclean, ?_⟩
    rw [file?_setFile, if_pos rfl]

/-- C10 (witness): on a state whose data file cannot be read, saving
the empty string is a no-op, while saving `x` succeeds and backs up the
file's actual bytes `old`. -/
theorem c10_witness :
    create_backup_if_changed wEnvRd wFSD 9 "" = (wFSD, .ok ()) ∧
    ("x" ≠ "" →
      ∃ fs', create_backup_if_changed wEnvRd wFSD 9 "x" = (fs', .ok ()) ∧
        fs'.file? (bdirPath wCfg ++ [generate_backup_filename 9])
          = some ⟨.text "old", 9⟩) :=
  c10_read_failure_treated_as_empty wEnvRd wFSD wCfg 9 "x" ⟨.text "old", 0⟩
    (by decide) (by decide) (by decide) (by decide) (by decide) (by decide)
    (by decide) (by decide) (by decide) (by decide) (by decide)

end CmdNotebook
